import Mathlib

/-!
Verification development for the Trolley price-comparison Netlify function
(netlify/functions/search.js).  The JavaScript source is shallowly embedded:

* JS numbers are modelled as `JSNum` (a rational or NaN); every regex the
  source uses is hand-compiled to an executable matcher over `List Char`
  with JS left-to-right, leftmost-match scanning semantics;
* network calls (`fetchPage`, the Anthropic API call) are modelled as
  oracle parameters (`String -> Except String String`, `Option String`);
* DOM extraction done by cheerio is out of reach of a text embedding, so
  pages enter the model at the text level the source itself works on
  (segment texts, listing-parse results as oracle outputs).
-/

/- The Batteries rational-number operations are `@[irreducible]`, which
blocks kernel evaluation of concrete arithmetic in `decide`; re-enable it
for this file (proofs stay axiom-free, this only restores unfolding). -/
attribute [local semireducible] Rat.add Rat.mul Rat.inv Rat.sub Rat.ofScientific

/-- Text is modelled as a list of characters (JS strings at our inputs are
ASCII, where UTF-16 code units and characters coincide). -/
abbrev Text := List Char

/-- A JavaScript number: either NaN or a rational value.  The source never
produces infinities on the paths modelled here. -/
inductive JSNum where
  | nan : JSNum
  | num : ℚ → JSNum
deriving DecidableEq, Repr

namespace JSNum

/-- JS boolean coercion of a number: NaN and 0 are falsy. -/
def truthy : JSNum → Bool
  | nan => false
  | num q => decide (q ≠ 0)

/-- JS `<` on numbers: any comparison with NaN is false. -/
def lt : JSNum → JSNum → Bool
  | num a, num b => decide (a < b)
  | _, _ => false

/-- JS `<=` on numbers: any comparison with NaN is false. -/
def le : JSNum → JSNum → Bool
  | num a, num b => decide (a ≤ b)
  | _, _ => false

/-- Multiplication by a rational constant; NaN propagates. -/
def mulQ : JSNum → ℚ → JSNum
  | nan, _ => nan
  | num a, k => num (a * k)

/-- JS division.  Division by zero yields an infinity in JS; it is
unreachable on the modelled paths (guarded by a range check), so it is
collapsed to NaN here. -/
def div : JSNum → JSNum → JSNum
  | num a, num b => if b = 0 then nan else num (a / b)
  | _, _ => nan

end JSNum

/-- JS truthiness of a nullable number (`null`/`undefined` is falsy). -/
def jsTruthyOpt : Option JSNum → Bool
  | none => false
  | some v => v.truthy

/-- JS `x < y` where `x` is a nullable number (`null < n` is not what the
source evaluates: it only compares after a truthiness check, so this helper
returns false on `null`). -/
def jsLtOpt : Option JSNum → JSNum → Bool
  | none, _ => false
  | some v, p => v.lt p

/-- JS `x || null` on a nullable number: a falsy value collapses to null. -/
def jsOrNullNum (x : Option JSNum) : Option JSNum :=
  match x with
  | some v => if v.truthy then some v else none
  | none => none

/-- JS `s || null` on a nullable string: the empty string collapses to null. -/
def jsOrNullStr (x : Option String) : Option String :=
  match x with
  | some s => if s = "" then none else some s
  | none => none

/-- Character class of the regex `[\d.]`. -/
def isDigitDot (c : Char) : Bool := c.isDigit || c == '.'

/-- The JS regex `\s` class (ECMA-262 WhiteSpace plus LineTerminator). -/
def isSpaceJS (c : Char) : Bool :=
  c == ' ' || c == '\t' || c == '\n' || c == '\r' ||
  c.toNat == 0x0B || c.toNat == 0x0C || c.toNat == 0xA0 || c.toNat == 0x1680 ||
  (0x2000 ≤ c.toNat && c.toNat ≤ 0x200A) ||
  c.toNat == 0x2028 || c.toNat == 0x2029 || c.toNat == 0x202F ||
  c.toNat == 0x205F || c.toNat == 0x3000 || c.toNat == 0xFEFF

/-- The JS regex `\w` class: ASCII letters, digits and underscore. -/
def isWordJS (c : Char) : Bool := c.isAlpha || c.isDigit || c == '_'

/-- JS line terminators, which `.` does not match. -/
def isLineTermJS (c : Char) : Bool :=
  c == '\n' || c == '\r' || c.toNat == 0x2028 || c.toNat == 0x2029

/-- Case-insensitive prefix test: does `t` start with pattern `pat`?
Patterns are supplied lowercased; matching lowers the text character, the
ASCII folding the `i` flag performs on the literals the source uses. -/
def ciStartsWith : Text → Text → Bool
  | [], _ => true
  | _, [] => false
  | p :: ps, c :: cs => (c.toLower == p) && ciStartsWith ps cs

/-- Case-insensitive substring test (JS `/pat/i.test(s)`). -/
def containsCI (t : Text) (pat : Text) : Bool :=
  match t with
  | [] => ciStartsWith pat []
  | _ :: r => ciStartsWith pat t || containsCI r pat

/-- Text before the first case-insensitive occurrence of `pat`
(JS `s.split(/pat/i)[0]`). -/
def beforeCI (t : Text) (pat : Text) : Text :=
  match t with
  | [] => []
  | c :: r => if ciStartsWith pat t then [] else c :: beforeCI r pat

/-- JS `String.prototype.trim` over the `\s` class. -/
def jsTrim (t : Text) : Text :=
  ((t.dropWhile isSpaceJS).reverse.dropWhile isSpaceJS).reverse

/-- Numeric value of a digit string. -/
def digitsVal (l : Text) : ℕ := l.foldl (fun n c => 10 * n + (c.toNat - 48)) 0

/-- JS `parseFloat` restricted to the `[\d.]+` tokens the source captures:
integer digits, an optional dot, fraction digits; parsing stops at a second
dot; a token containing no digit before the stop point is NaN. -/
def jsParseFloat (tok : Text) : JSNum :=
  let ip := tok.takeWhile Char.isDigit
  let rest := tok.drop ip.length
  let fp := match rest with
    | '.' :: r => r.takeWhile Char.isDigit
    | _ => []
  if ip = [] ∧ fp = [] then JSNum.nan
  else JSNum.num ((digitsVal ip : ℚ) + (digitsVal fp : ℚ) / 10 ^ fp.length)

/-- A regex matcher anchored at the start of the text: on success it
returns the length of the whole match and a payload (typically the capture
group). -/
abbrev Matcher (α : Type) := Text → Option (ℕ × α)

/-- JS `matchAll` scanning: find the leftmost match, resume after it
(matches of length 0 cannot occur for the matchers used here, `max len 1`
only serves termination). Returns the match start positions and payloads. -/
def scanAllAux {α : Type} (M : Matcher α) : ℕ → Text → ℕ → List (ℕ × α)
  | 0, _, _ => []
  | _, [], _ => []
  | fuel + 1, c :: r, i =>
    match M (c :: r) with
    | some (len, a) => (i, a) :: scanAllAux M fuel ((c :: r).drop (max len 1)) (i + max len 1)
    | none => scanAllAux M fuel r (i + 1)

/-- JS `matchAll` scanning, with the fuel fixed to the text length (each
step consumes at least one character, so that fuel always suffices). -/
def scanAll {α : Type} (M : Matcher α) (t : Text) (i : ℕ) : List (ℕ × α) :=
  scanAllAux M t.length t i

/-- All positions (with payloads) at which a matcher succeeds: the
position-by-position truth, independent of scanning. -/
def posAll {α : Type} (M : Matcher α) : Text → ℕ → List (ℕ × α)
  | [], _ => []
  | t@(_ :: r), i =>
    (match M t with
     | some (_, a) => [(i, a)]
     | none => []) ++ posAll M r (i + 1)

/-- First (leftmost) match of a non-global regex. -/
def firstMatch {α : Type} (M : Matcher α) : Text → Option α
  | [] => (M []).map (·.2)
  | t@(_ :: r) =>
    match M t with
    | some p => some p.2
    | none => firstMatch M r

/-- Matcher for `£([\d.]+)` (payload: the amount token). -/
def mPound : Matcher Text := fun t =>
  match t with
  | '£' :: r =>
    let tok := r.takeWhile isDigitDot
    if tok = [] then none else some (1 + tok.length, tok)
  | _ => none

/-- Matcher for `£[\d.]+\s+per\s+` (the per-unit qualifier prefix the
source collects positions of). -/
def mPerQual : Matcher Unit := fun t =>
  match t with
  | '£' :: r =>
    let tok := r.takeWhile isDigitDot
    if tok = [] then none else
    let r2 := r.drop tok.length
    let ws1 := r2.takeWhile isSpaceJS
    if ws1 = [] then none else
    let r3 := r2.drop ws1.length
    if ciStartsWith "per".toList r3 then
      let ws2 := (r3.drop 3).takeWhile isSpaceJS
      if ws2 = [] then none
      else some (1 + tok.length + ws1.length + 3 + ws2.length, ())
    else none
  | _ => none

/-- Matcher for `£([\d.]+)\s+each` (payload: the amount token). -/
def mEach : Matcher Text := fun t =>
  match t with
  | '£' :: r =>
    let tok := r.takeWhile isDigitDot
    if tok = [] then none else
    let r2 := r.drop tok.length
    let ws1 := r2.takeWhile isSpaceJS
    if ws1 = [] then none else
    if ciStartsWith "each".toList (r2.drop ws1.length) then
      some (1 + tok.length + ws1.length + 4, tok)
    else none
  | _ => none

/-- The group `([\d]*\s*[\w]+)` of the per-unit regex, with the
backtracking JS performs: if no word character follows the whitespace the
greedy digit run backtracks one digit, which then satisfies `[\w]+`, so a
bare digit run still matches (consuming just the digits). Returns the
consumed length and the capture. -/
def unitGroup (t : Text) : Option (ℕ × Text) :=
  let d := t.takeWhile Char.isDigit
  let t2 := t.drop d.length
  let w := t2.takeWhile isSpaceJS
  let u := (t2.drop w.length).takeWhile isWordJS
  if u ≠ [] then some (d.length + w.length + u.length, d ++ w ++ u)
  else if d ≠ [] then some (d.length, d)
  else none

/-- Matcher for `£([\d.]+)\s+per\s+([\d]*\s*[\w]+)` (payload: amount token
and unit capture). -/
def mUnitPrice : Matcher (Text × Text) := fun t =>
  match t with
  | '£' :: r =>
    let tok := r.takeWhile isDigitDot
    if tok = [] then none else
    let r2 := r.drop tok.length
    let ws1 := r2.takeWhile isSpaceJS
    if ws1 = [] then none else
    let r3 := r2.drop ws1.length
    if ciStartsWith "per".toList r3 then
      let ws2 := (r3.drop 3).takeWhile isSpaceJS
      if ws2 = [] then none else
      match unitGroup ((r3.drop 3).drop ws2.length) with
      | some (n, cap) =>
        some (1 + tok.length + ws1.length + 3 + ws2.length + n, (tok, cap))
      | none => none
    else none
  | _ => none

/-- Matcher for `KEYWORD\s*(?:PRICE)?\s*£([\d.]+)` with the `i` flag
(keyword supplied lowercased), e.g. `/CLUBCARD\s*(?:PRICE)?\s*£([\d.]+)/i`.
If `PRICE` is present the alternative without it cannot match (the position
after the first `\s*` then holds `P`, not `£`), so no further backtracking
arises. Payload: the amount token. -/
def mLoyalty (kw : Text) : Matcher Text := fun t =>
  if ciStartsWith kw t then
    let r := t.drop kw.length
    let ws1 := r.takeWhile isSpaceJS
    let r2 := r.drop ws1.length
    let step :=
      if ciStartsWith "price".toList r2 then
        let ws2 := (r2.drop 5).takeWhile isSpaceJS
        (5 + ws2.length, (r2.drop 5).drop ws2.length)
      else (0, r2)
    match step.2 with
    | '£' :: rr =>
      let tok := rr.takeWhile isDigitDot
      if tok = [] then none
      else some (kw.length + ws1.length + step.1 + 1 + tok.length, tok)
    | _ => none
  else none

/-- Matcher for `£([\d.]+)\s+KEYWORD` with the `i` flag, e.g.
`/£([\d.]+)\s+Clubcard/i`. Payload: the amount token. -/
def mLoyaltyAlt (kw : Text) : Matcher Text := fun t =>
  match t with
  | '£' :: r =>
    let tok := r.takeWhile isDigitDot
    if tok = [] then none else
    let r2 := r.drop tok.length
    let ws1 := r2.takeWhile isSpaceJS
    if ws1 = [] then none else
    if ciStartsWith kw (r2.drop ws1.length) then
      some (1 + tok.length + ws1.length + kw.length, tok)
    else none
  | _ => none

/-- Lazy `.+?PAT` step: the minimal number `k ≥ 1` of non-line-terminator
characters after which `PAT` matches case-insensitively. -/
def dotLazy (pat : Text) : Text → Option ℕ
  | [] => none
  | c :: r =>
    if isLineTermJS c then none
    else if ciStartsWith pat r then some 1
    else (dotLazy pat r).map (· + 1)

/-- First promo alternative `\d+\s+FOR\s+£[\d.]+` (consumed length). -/
def promoAlt1 (t : Text) : Option ℕ :=
  let d := t.takeWhile Char.isDigit
  if d = [] then none else
  let t2 := t.drop d.length
  let w1 := t2.takeWhile isSpaceJS
  if w1 = [] then none else
  let t3 := t2.drop w1.length
  if ciStartsWith "for".toList t3 then
    let w2 := (t3.drop 3).takeWhile isSpaceJS
    if w2 = [] then none else
    match (t3.drop 3).drop w2.length with
    | '£' :: r =>
      let tok := r.takeWhile isDigitDot
      if tok = [] then none
      else some (d.length + w1.length + 3 + w2.length + 1 + tok.length)
    | _ => none
  else none

/-- Second promo alternative `BUY\s+\d+.+?SAVE` (consumed length).  The
greedy `\d+` backtracks from the full digit run downwards until the lazy
tail finds `SAVE`. -/
def promoAlt2 (t : Text) : Option ℕ :=
  if ciStartsWith "buy".toList t then
    let t2 := t.drop 3
    let w1 := t2.takeWhile isSpaceJS
    if w1 = [] then none else
    let t3 := t2.drop w1.length
    let d := t3.takeWhile Char.isDigit
    if d = [] then none else
    (((List.range d.length).reverse.map (fun jm1 =>
        let j := jm1 + 1
        (dotLazy "save".toList (d.drop j ++ t3.drop d.length)).map
          (fun k => 3 + w1.length + j + k + 4))).findSome? id)
  else none

/-- Third promo alternative `ANY\s+\d+\s+FOR\s+£[\d.]+` (consumed length). -/
def promoAlt3 (t : Text) : Option ℕ :=
  if ciStartsWith "any".toList t then
    let t2 := t.drop 3
    let w1 := t2.takeWhile isSpaceJS
    if w1 = [] then none else
    let t3 := t2.drop w1.length
    let d := t3.takeWhile Char.isDigit
    if d = [] then none else
    let t4 := t3.drop d.length
    let w2 := t4.takeWhile isSpaceJS
    if w2 = [] then none else
    let t5 := t4.drop w2.length
    if ciStartsWith "for".toList t5 then
      let w3 := (t5.drop 3).takeWhile isSpaceJS
      if w3 = [] then none else
      match (t5.drop 3).drop w3.length with
      | '£' :: r =>
        let tok := r.takeWhile isDigitDot
        if tok = [] then none
        else some (3 + w1.length + d.length + w2.length + 3 + w3.length + 1 + tok.length)
      | _ => none
    else none
  else none

/-- Matcher for the promo regex
`(\d+\s+FOR\s+£[\d.]+|BUY\s+\d+.+?SAVE|ANY\s+\d+\s+FOR\s+£[\d.]+)/i`,
alternatives tried in order; group 1 is the whole match. -/
def mPromo : Matcher Text := fun t =>
  match promoAlt1 t with
  | some n => some (n, t.take n)
  | none =>
    match promoAlt2 t with
    | some n => some (n, t.take n)
    | none =>
      match promoAlt3 t with
      | some n => some (n, t.take n)
      | none => none

/-- Matcher for `\[[\d,\s]*\]` (payload: the whole matched substring). -/
def mBracket : Matcher Text := fun t =>
  match t with
  | '[' :: r =>
    let body := r.takeWhile (fun c => c.isDigit || c == ',' || isSpaceJS c)
    match r.drop body.length with
    | ']' :: _ => some (1 + body.length + 1, '[' :: body ++ [']'])
    | _ => none
  | _ => none

/-- Source `extractItemPrice` (search.js lines 581-588): collect the start
positions of all `£[\d.]+\s+per\s+` matches, then return the parse of the
first `£([\d.]+)` match whose position is not among them, else 0. -/
def extractItemPrice (t : Text) : JSNum :=
  let perPos := (scanAll mPerQual t 0).map Prod.fst
  match (scanAll mPound t 0).find? (fun m => decide (m.1 ∉ perPos)) with
  | some m => jsParseFloat m.2
  | none => JSNum.num 0

/-- Position `i` of `t` carries a per-unit qualified amount: the per-unit
qualifier regex matches starting at `i`. -/
def perQualifiedAt (t : Text) (i : ℕ) : Bool := (mPerQual (t.drop i)).isSome

/-- A positional specification of the extractor, written from the amended
claim: among all positions at which a currency amount occurs, take the
first that is not immediately followed by a whitespace-separated `per`
qualifier, and parse its token; 0 when there is none. -/
def specItemPrice (t : Text) : JSNum :=
  match (posAll mPound t 0).find? (fun m => !(perQualifiedAt t m.1)) with
  | some m => jsParseFloat m.2
  | none => JSNum.num 0

/-- Position `i` of `t` carries an amount qualified by `each`, in the
spec sense of C1 (the `each` analogue of the per-unit qualifier, mirrored
from the source eachMatch pattern `£([\d.]+)\s+each`). -/
def eachQualifiedAt (t : Text) (i : ℕ) : Bool := (mEach (t.drop i)).isSome

/-- Position `i` of `t` carries a currency amount. -/
def amountAt (t : Text) (i : ℕ) : Bool := (mPound (t.drop i)).isSome

/-- Source `computePer100g` (search.js lines 591-601). The weight argument
is a nullable string; the anchored regex `^([\d.]+)\s*(g|kg|ml|l|pt)$/i` is
compiled to a whole-string decomposition. -/
def weightMatch (t : Text) : Option (Text × String) :=
  let tok := t.takeWhile isDigitDot
  if tok = [] then none else
  let r := t.drop tok.length
  let ws := r.takeWhile isSpaceJS
  let u := r.drop ws.length
  let lu := (u.map Char.toLower)
  if lu = "g".toList ∨ lu = "kg".toList ∨ lu = "ml".toList ∨
     lu = "l".toList ∨ lu = "pt".toList then
    some (tok, String.mk lu)
  else none

/-- Source `computePer100g`: null on falsy price or weight, parse the
weight token, normalize kg and l by 1000 and pt by 568, reject amounts
outside the sanity window, else price over amount times 100. -/
def computePer100g (price : JSNum) (weight : Option String) : Option JSNum :=
  if !price.truthy then none else
  match weight with
  | none => none
  | some w =>
    if w = "" then none else
    match weightMatch w.toList with
    | none => none
    | some (tok, unitStr) =>
      let amount0 := jsParseFloat tok
      let amount :=
        if unitStr = "kg" ∨ unitStr = "l" then amount0.mulQ 1000
        else if unitStr = "pt" then amount0.mulQ 568
        else amount0
      if amount.lt (JSNum.num 5) || (JSNum.num 50000).lt amount then none
      else some ((price.div amount).mulQ 100)

example : extractItemPrice "£0.55 per 100g £2.50".toList = JSNum.num (5/2) := by decide
example : extractItemPrice "£0.55 each £2.50".toList = JSNum.num (11/20) := by decide
example : extractItemPrice "no price here".toList = JSNum.num 0 := by decide
example : computePer100g (JSNum.num 2) (some "400g") = some (JSNum.num (1/2)) := by decide
example : computePer100g (JSNum.num 2) (some "1g") = none := by decide
example : computePer100g (JSNum.num 2) (some "2kg") = some (JSNum.num (1/10)) := by decide
example : firstMatch (mLoyalty "clubcard".toList) " £2.00 Clubcard Price £2.50".toList = some "2.50".toList := by decide
example : firstMatch mPromo "xx 3 FOR £5.00 yy".toList = some "3 FOR £5.00".toList := by decide

/-- Store configuration row of the `knownStores` table (search.js lines
415-428): the store name and, for loyalty-scheme stores, the keyword of the
two loyalty regexes (lowercased; both regexes carry the `i` flag) together
with the scheme display name. -/
structure StoreConfig where
  name : String
  loyaltyKeyword : Option (String × String) := none
deriving DecidableEq, Repr

/-- The `knownStores` table of the detail parser. -/
def knownStores : List StoreConfig :=
  [ { name := "Tesco", loyaltyKeyword := some ("clubcard", "Clubcard") },
    { name := "Sainsbury\x27s", loyaltyKeyword := some ("nectar", "Nectar") },
    { name := "Aldi" }, { name := "Asda" }, { name := "Morrisons" },
    { name := "Waitrose" }, { name := "Ocado" }, { name := "Co-op" },
    { name := "Iceland" }, { name := "Amazon" } ]

/-- A per-store price entry produced by the detail parser
(search.js lines 493-505). -/
structure StorePriceEntry where
  store : String
  price : JSNum
  pricePerUnit : Option JSNum
  unit : Option String
  loyaltyPrice : Option JSNum
  loyaltyScheme : Option String
  promotion : Option String
  bestPrice : JSNum
deriving DecidableEq, Repr

/-- The effective-price ternary the source writes three times (lines 286,
288 and 502): `lp && lp < p ? lp : p` on a nullable loyalty price. -/
def effPrice (lp : Option JSNum) (p : JSNum) : JSNum :=
  match lp with
  | some l => if l.truthy && l.lt p then l else p
  | none => p

/-- `segment.split(/VISIT/i)[0]` (search.js line 448). -/
def cleanSegment (segment : Text) : Text := beforeCI segment "visit".toList

/-- The per-unit price extraction of a segment (search.js lines 451-456):
the `£X per Y` pattern first, then `£X each` normalizing the unit to
`per item`; the captured unit is trimmed. -/
def segmentUnitPrice (segClean : Text) : Option JSNum × Option String :=
  match firstMatch mUnitPrice segClean with
  | some (tok, cap) => (some (jsParseFloat tok), some ("per " ++ String.mk (jsTrim cap)))
  | none =>
    match firstMatch mEach segClean with
    | some tok => (some (jsParseFloat tok), some "per item")
    | none => (none, none)

/-- The `allPrices` computation of a segment (search.js lines 458-466):
every pound amount whose position is not a per-unit qualifier position, in
order. -/
def segmentPrices (segClean : Text) : List JSNum :=
  ((scanAll mPound segClean 0).filter
      (fun m => decide (m.1 ∉ (scanAll mPerQual segClean 0).map Prod.fst))).map
    (fun m => jsParseFloat m.2)

/-- The loyalty-price extraction of a segment (search.js lines 472-488):
`SCHEME price £X` ordering accepted unconditionally, the `£X SCHEME`
ordering only when strictly below the item price. -/
def segmentLoyalty (cfg : StoreConfig) (segClean : Text) (price : JSNum) :
    Option JSNum × Option String :=
  match cfg.loyaltyKeyword with
  | none => (none, none)
  | some kws =>
    match firstMatch (mLoyalty kws.1.toList) segClean with
    | some tok => (some (jsParseFloat tok), some kws.2)
    | none =>
      match firstMatch (mLoyaltyAlt kws.1.toList) segClean with
      | some tok =>
        if (jsParseFloat tok).lt price then (some (jsParseFloat tok), some kws.2)
        else (none, none)
      | none => (none, none)

/-- One iteration of the detail parser store-segment loop (search.js lines
436-506): given the store configuration found for the matched store name
and the segment text following it, produce the store price entry, or none
when the segment is skipped (unavailable marker, or no usable price).
The source computes `segmentClean` once; it is repeated here purely
syntactically, without change of meaning. -/
def parseSegment (cfg : StoreConfig) (segment : Text) : Option StorePriceEntry :=
  if containsCI (segment.take 60) "unavailable".toList then none else
  match segmentPrices (cleanSegment segment) with
  | [] => none
  | price :: _ =>
    some { store := cfg.name, price := price,
           pricePerUnit := (segmentUnitPrice (cleanSegment segment)).1,
           unit := (segmentUnitPrice (cleanSegment segment)).2,
           loyaltyPrice := (segmentLoyalty cfg (cleanSegment segment) price).1,
           loyaltyScheme := (segmentLoyalty cfg (cleanSegment segment) price).2,
           promotion := (firstMatch mPromo (cleanSegment segment)).map
             (fun s => String.mk (jsTrim s)),
           bestPrice := effPrice (segmentLoyalty cfg (cleanSegment segment) price).1 price }

def tescoConfig : StoreConfig := { name := "Tesco", loyaltyKeyword := some ("clubcard", "Clubcard") }

example : parseSegment tescoConfig " £2.50 Clubcard Price £2.00 ".toList =
    some { store := "Tesco", price := JSNum.num (5/2), pricePerUnit := none, unit := none,
           loyaltyPrice := some (JSNum.num 2), loyaltyScheme := some "Clubcard",
           promotion := none, bestPrice := JSNum.num 2 } := by decide

example : parseSegment tescoConfig " £2.00 Clubcard Price £2.50 ".toList =
    some { store := "Tesco", price := JSNum.num 2, pricePerUnit := none, unit := none,
           loyaltyPrice := some (JSNum.num (5/2)), loyaltyScheme := some "Clubcard",
           promotion := none, bestPrice := JSNum.num 2 } := by decide

example : parseSegment tescoConfig " £2.50 per 100g £10.00 VISIT".toList =
    some { store := "Tesco", price := JSNum.num 10, pricePerUnit := some (JSNum.num (5/2)),
           unit := some "per 100g", loyaltyPrice := none, loyaltyScheme := none,
           promotion := none, bestPrice := JSNum.num 10 } := by decide

example : parseSegment tescoConfig " Unavailable £2.00".toList = none := by decide

/-- A lightweight listing-page product stub (search.js lines 203-215). -/
structure ProductStub where
  name : String
  code : String
  slug : String
  store : String
  price : JSNum
  wasPrice : Option JSNum
  weight : Option String
  pricePerUnit : Option JSNum
  unit : Option String
  imageUrl : String
  productUrl : String
deriving DecidableEq, Repr

/-- An entry of the detail-page alternatives list (search.js lines 539-549). -/
structure AltEntry where
  name : String
  code : String
  slug : String
  store : String
  price : JSNum
  pricePerUnit : Option JSNum
  unit : Option String
  imageUrl : String
  productUrl : String
deriving DecidableEq, Repr

/-- Price-history hint of a detail page (search.js lines 555-560). -/
structure PriceHistory where
  usual : Option JSNum
  highest : Option JSNum
deriving DecidableEq, Repr

/-- The full parse of one product detail page (search.js lines 562-571). -/
structure ProductDetail where
  code : String
  name : String
  weight : Option String
  imageUrl : Option String
  storePrices : List StorePriceEntry
  alternatives : List AltEntry
  priceHistory : PriceHistory
  source : String
deriving DecidableEq, Repr

/-- One successful element of `detailResults` in compare mode (search.js
lines 263-274): the selected stub, its parsed detail page, its URL. -/
structure DetailResult where
  product : ProductStub
  detail : ProductDetail
  detailUrl : String
deriving DecidableEq, Repr

/-- A merged per-store comparison row (search.js lines 290-305, 318-333). -/
structure ComparisonRow where
  store : String
  price : JSNum
  pricePerUnit : Option JSNum
  unit : Option String
  loyaltyPrice : Option JSNum
  loyaltyScheme : Option String
  promotion : Option String
  per100g : Option JSNum
  name : String
  weight : Option String
  imageUrl : Option String
  productUrl : String
  code : String
  slug : String
deriving DecidableEq, Repr

/-- The `byStore` accumulator: a JS object with string keys, modelled as an
association list in insertion order (updating an existing key keeps its
position, as JS objects do). -/
abbrev RowMap := List (String × ComparisonRow)

/-- Lookup `byStore[k]`. -/
def mapGet : RowMap → String → Option ComparisonRow
  | [], _ => none
  | (k', v) :: rest, k => if k' = k then some v else mapGet rest k

/-- Assignment `byStore[k] = v` (in-place update or append). -/
def mapSet : RowMap → String → ComparisonRow → RowMap
  | [], k, v => [(k, v)]
  | (k', v') :: rest, k, v =>
    if k' = k then (k, v) :: rest else (k', v') :: mapSet rest k v

/-- `Object.values(byStore)`: values in insertion order. -/
def mapValues (m : RowMap) : List ComparisonRow := m.map Prod.snd

/-- The JS `\b\w` title-casing of `replace(/\b\w/g, c => c.toUpperCase())`:
uppercase every word character at a word boundary.  The flag records
whether the previous character was a word character. -/
def titleCaseAux : Bool → Text → Text
  | _, [] => []
  | prevW, c :: r =>
    let cw := isWordJS c
    (if cw && !prevW then c.toUpper else c) :: titleCaseAux cw r

/-- The display name chosen for an alternatives-sourced row (search.js
lines 315-317): the alternative name when long enough, else the
title-cased slug, else the store name. -/
def altDisplayName (alt : AltEntry) : String :=
  if alt.name ≠ "" ∧ alt.name.length > alt.store.length + 2 then alt.name
  else
    let s := String.mk (titleCaseAux false
      (alt.slug.toList.map (fun c => if c = '-' then ' ' else c)))
    if s = "" then alt.store else s

/-- Row built from a primary store-price entry (search.js lines 290-305). -/
def mkRow (dr : DetailResult) (sp : StorePriceEntry) : ComparisonRow :=
  let eff := effPrice sp.loyaltyPrice sp.price
  { store := sp.store, price := sp.price,
    pricePerUnit := jsOrNullNum sp.pricePerUnit, unit := jsOrNullStr sp.unit,
    loyaltyPrice := jsOrNullNum sp.loyaltyPrice,
    loyaltyScheme := jsOrNullStr sp.loyaltyScheme,
    promotion := jsOrNullStr sp.promotion,
    per100g := computePer100g eff dr.detail.weight,
    name := dr.detail.name, weight := dr.detail.weight,
    imageUrl := dr.detail.imageUrl, productUrl := dr.detailUrl,
    code := dr.product.code, slug := dr.product.slug }

/-- Row built from an alternatives entry (search.js lines 318-333). -/
def mkAltRow (alt : AltEntry) : ComparisonRow :=
  { store := alt.store, price := alt.price,
    pricePerUnit := jsOrNullNum alt.pricePerUnit, unit := jsOrNullStr alt.unit,
    loyaltyPrice := none, loyaltyScheme := none, promotion := none,
    per100g := none, name := altDisplayName alt, weight := none,
    imageUrl := some alt.imageUrl, productUrl := alt.productUrl,
    code := alt.code, slug := alt.slug }

/-- One iteration of the primary merge loop body (search.js lines 284-307):
skip entries with falsy store or price, else keep the entry with the
strictly lower effective price (first seen wins ties). -/
def primaryStep (dr : DetailResult) (m : RowMap) (sp : StorePriceEntry) : RowMap :=
  if sp.store = "" then m else
  if !sp.price.truthy then m else
  match mapGet m sp.store with
  | none => mapSet m sp.store (mkRow dr sp)
  | some ex =>
    if (effPrice sp.loyaltyPrice sp.price).lt (effPrice ex.loyaltyPrice ex.price) then
      mapSet m sp.store (mkRow dr sp)
    else m

/-- Step 3 of the compare merge (search.js lines 281-308). -/
def primaryPass (drs : List DetailResult) : RowMap :=
  drs.foldl (fun m dr => dr.detail.storePrices.foldl (primaryStep dr) m) []

/-- One iteration of the alternatives fill loop body (search.js lines
312-334): only stores with truthy names, absent from the map, with a
truthy strictly positive price are added. -/
def altStep (m : RowMap) (alt : AltEntry) : RowMap :=
  if alt.store = "" then m else
  if (mapGet m alt.store).isSome then m else
  if !alt.price.truthy then m else
  if alt.price.le (JSNum.num 0) then m else
  mapSet m alt.store (mkAltRow alt)

/-- Step 4 of the compare merge (search.js lines 310-335). -/
def altsPass (drs : List DetailResult) (m : RowMap) : RowMap :=
  drs.foldl (fun m dr => dr.detail.alternatives.foldl altStep m) m

/-- The full two-pass merge map of compare mode. -/
def mergeMap (drs : List DetailResult) : RowMap :=
  altsPass drs (primaryPass drs)

/-- The merged `storePrices` array (search.js line 337). -/
def mergeStorePrices (drs : List DetailResult) : List ComparisonRow :=
  mapValues (mergeMap drs)

/-- Base URL constant of the source. -/
def TROLLEY : String := "https://www.trolley.co.uk"

/-- JS `Math.min` (NaN propagates). -/
def jsMinNum : JSNum → JSNum → JSNum
  | JSNum.num a, JSNum.num b => JSNum.num (min a b)
  | _, _ => JSNum.nan

/-- JS `Math.max` (NaN propagates). -/
def jsMaxNum : JSNum → JSNum → JSNum
  | JSNum.num a, JSNum.num b => JSNum.num (max a b)
  | _, _ => JSNum.nan

/-- Characters `encodeURIComponent` leaves unescaped. -/
def isUriUnreserved (c : Char) : Bool :=
  c.isAlpha || c.isDigit || c == '-' || c == '_' || c == '.' ||
  c == '!' || c == '~' || c == '*' || c == '\x27' || c == '(' || c == ')'

/-- Uppercase hexadecimal digit. -/
def hexDigit (n : ℕ) : Char := if n < 10 then Char.ofNat (48 + n) else Char.ofNat (55 + n)

/-- UTF-8 bytes of a character (standard four-case encoding). -/
def utf8Bytes (c : Char) : List ℕ :=
  let n := c.toNat
  if n < 0x80 then [n]
  else if n < 0x800 then [0xC0 + n / 0x40, 0x80 + n % 0x40]
  else if n < 0x10000 then [0xE0 + n / 0x1000, 0x80 + (n / 0x40) % 0x40, 0x80 + n % 0x40]
  else [0xF0 + n / 0x40000, 0x80 + (n / 0x1000) % 0x40, 0x80 + (n / 0x40) % 0x40, 0x80 + n % 0x40]

/-- JS `encodeURIComponent`. -/
def encodeURIComponent (s : String) : String :=
  String.mk (s.toList.foldr (fun c acc =>
    if isUriUnreserved c then c :: acc
    else (utf8Bytes c).foldr (fun b a => '%' :: hexDigit (b / 16) :: hexDigit (b % 16) :: a) acc) [])

/-- The slug character class `[a-z0-9]` (after lowercasing). -/
def isSlugChar (c : Char) : Bool := ('a' ≤ c && c ≤ 'z') || c.isDigit

/-- `replace(/[^a-z0-9]+/g, "-")`: each maximal non-matching run becomes a
single dash. The flag records being inside a replaced run. -/
def slugReplaceAux : Bool → Text → Text
  | _, [] => []
  | inRun, c :: r =>
    if isSlugChar c then c :: slugReplaceAux false r
    else if inRun then slugReplaceAux true r
    else '-' :: slugReplaceAux true r

/-- `replace(/^-|-$/g, "")` on a dash-collapsed string: drop one leading
and one trailing dash. -/
def stripEdgeDashes (t : Text) : Text :=
  let t1 := match t with
    | '-' :: r => r
    | _ => t
  match t1.reverse with
  | '-' :: r => r.reverse
  | _ => t1

/-- The query slug built by `handleSearch` and `handleCompare`
(search.js lines 107, 231). -/
def searchSlug (q : String) : String :=
  String.mk (stripEdgeDashes (slugReplaceAux false (q.toList.map Char.toLower)))

/-- The listing URL variants tried in order (search.js lines 110-115,
232-237). -/
def searchUrls (q : String) : List String :=
  let slug := searchSlug q
  [ TROLLEY ++ "/explore/" ++ slug ++ "s",
    TROLLEY ++ "/explore/" ++ slug,
    TROLLEY ++ "/explore/" ++ slug ++ "es",
    TROLLEY ++ "/search/?q=" ++ encodeURIComponent q ]

/-- Response bodies the handler serializes (modelled structurally instead
of as JSON strings). -/
inductive ResponseBody where
  | errorMsg (msg : String)
  | searchResults (query : String) (products : List ProductStub)
      (totalResults : ℕ) (source : String)
  | compareResults (query : String) (storePrices : List ComparisonRow)
  | detailResult (detail : ProductDetail)
deriving DecidableEq, Repr

/-- A handler response (search.js `json` helper, lines 615-624). -/
structure HttpResponse where
  statusCode : ℕ
  cacheControl : String
  body : ResponseBody
deriving DecidableEq, Repr

/-- The `json(status, body)` helper: 200 responses are cacheable for 15
minutes, errors are not cached. -/
def json (status : ℕ) (body : ResponseBody) : HttpResponse :=
  { statusCode := status,
    cacheControl := if status = 200 then "public, max-age=900" else "no-cache",
    body := body }

/-- The URL-variant loop of `handleSearch` (search.js lines 117-138): a
fetch failure or short page moves to the next variant, a parse with at
least one product returns it, exhaustion returns the empty result set. -/
def searchLoop (fetchO : String → Except String String)
    (parseO : String → JSNum → List ProductStub)
    (query : String) (maxResults : JSNum) : List String → HttpResponse
  | [] => json 200 (ResponseBody.searchResults query [] 0 "trolley.co.uk")
  | url :: rest =>
    match fetchO url with
    | Except.error _ => searchLoop fetchO parseO query maxResults rest
    | Except.ok html =>
      if html.length < 200 then searchLoop fetchO parseO query maxResults rest
      else
        let products := parseO html maxResults
        if products.length > 0 then
          json 200 (ResponseBody.searchResults query products products.length "trolley.co.uk")
        else searchLoop fetchO parseO query maxResults rest

/-- Source `handleSearch` (search.js lines 99-139).  `fetchO` is the page
fetcher (error value = thrown fetch error); `parseO` is
`parseListingPage`, a DOM parse modelled as an oracle of the page text and
the result cap. -/
def handleSearch (fetchO : String → Except String String)
    (parseO : String → JSNum → List ProductStub)
    (query : String) (maxResultsRaw : JSNum) : HttpResponse :=
  if query = "" ∨ query.length > 120 then json 400 (ResponseBody.errorMsg "Invalid query")
  else
    let maxResults := jsMaxNum (JSNum.num 1) (jsMinNum maxResultsRaw (JSNum.num 500))
    searchLoop fetchO parseO query maxResults (searchUrls query)

/-- JSON whitespace (strictly smaller than the JS `\s` class: a JS-space
character such as a vertical tab inside the bracket match makes
`JSON.parse` throw). -/
def isSpaceJSON (c : Char) : Bool := c == ' ' || c == '\t' || c == '\n' || c == '\r'

/-- Skip JSON whitespace. -/
def skipJsonWs (t : Text) : Text := t.dropWhile isSpaceJSON

/-- Parse one JSON natural number (no leading zeros; the bracket-matched
region contains no sign, dot or exponent characters). -/
def jsonNat (t : Text) : Option (ℕ × Text) :=
  match t with
  | c :: r =>
    if c = '0' then
      match r with
      | c2 :: _ => if c2.isDigit then none else some (0, r)
      | [] => some (0, [])
    else if c.isDigit then
      let ds := r.takeWhile Char.isDigit
      some (digitsVal (c :: ds), r.drop ds.length)
    else none
  | [] => none

/-- Parse the comma-separated element list of a JSON array of naturals, up
to the closing bracket (fuelled; each step consumes at least two
characters, so text length is always enough fuel). -/
def jsonElemsAux : ℕ → Text → Option (List ℕ)
  | 0, _ => none
  | fuel + 1, t =>
    match jsonNat t with
    | none => none
    | some (n, r) =>
      match skipJsonWs r with
      | ']' :: rest => if rest = [] then some [n] else none
      | ',' :: r2 =>
        match jsonElemsAux fuel (skipJsonWs r2) with
        | some ns => some (n :: ns)
        | none => none
      | _ => none

/-- `JSON.parse` on the substring matched by `\[[\d,\s]*\]`: an array of
naturals, or none when JSON.parse would throw. -/
def jsonParseNatList (t : Text) : Option (List ℕ) :=
  match t with
  | '[' :: r =>
    match skipJsonWs r with
    | ']' :: rest => if rest = [] then some [] else none
    | r1 => jsonElemsAux r1.length r1
  | _ => none

/-- Source `aiSelectBestCandidates` (search.js lines 18-57).  `hasKey`
models `process.env.ANTHROPIC_API_KEY` being set; `resp` is the oracle for
the collaborator round trip: `none` when the fetch or response decoding
throws, otherwise the assistant text `data.content?.[0]?.text || ""`. -/
def aiSelectBestCandidates (hasKey : Bool) (cands : List ProductStub)
    (resp : Option String) : List ℕ :=
  if !hasKey || cands.length ≤ 1 then [0]
  else
    match resp with
    | none => [0]
    | some raw =>
      match firstMatch mBracket (jsTrim raw.toList) with
      | none => [0]
      | some arr =>
        match jsonParseNatList arr with
        | none => [0]
        | some ns =>
          let indices := ns.filter (fun i => i < cands.length)
          if indices.length > 0 then indices.take 4 else [0]

/-- The URL-variant loop of `handleCompare` step 1 (search.js lines
240-251): the first variant yielding at least one stub wins. -/
def compareCandidateLoop (fetchO : String → Except String String)
    (parseO : String → JSNum → List ProductStub) : List String → List ProductStub
  | [] => []
  | url :: rest =>
    match fetchO url with
    | Except.error _ => compareCandidateLoop fetchO parseO rest
    | Except.ok html =>
      if html.length < 200 then compareCandidateLoop fetchO parseO rest
      else
        let products := parseO html (JSNum.num 30)
        if products.length > 0 then products
        else compareCandidateLoop fetchO parseO rest

/-- The detail URL built for a selected stub (search.js line 265). -/
def detailUrlOf (p : ProductStub) : String :=
  TROLLEY ++ "/product/" ++ p.slug ++ "/" ++ p.code

/-- Source `handleCompare` (search.js lines 226-341).  `parseDetailO`
models `parseProductPage` (page text and code to parsed detail). -/
def handleCompare (fetchO : String → Except String String)
    (parseListO : String → JSNum → List ProductStub)
    (parseDetailO : String → String → ProductDetail)
    (hasKey : Bool) (selResp : Option String) (query : String) : HttpResponse :=
  if query = "" ∨ query.length > 120 then json 400 (ResponseBody.errorMsg "Invalid query")
  else
    let cands := compareCandidateLoop fetchO parseListO (searchUrls query)
    if cands = [] then json 200 (ResponseBody.compareResults query [])
    else
      let sel := aiSelectBestCandidates hasKey cands selResp
      -- selectedIndices.map(i => candidates[i]); every selector index is
      -- filtered to be in range, so filterMap over get? is that map
      let top := sel.filterMap (fun i => cands.get? i)
      let detailResults := top.filterMap (fun p =>
        match fetchO (detailUrlOf p) with
        | Except.error _ => none
        | Except.ok html =>
          some { product := p, detail := parseDetailO html p.code,
                 detailUrl := detailUrlOf p })
      if detailResults = [] then json 200 (ResponseBody.compareResults query [])
      else json 200 (ResponseBody.compareResults query (mergeStorePrices detailResults))

/-- The product-code validation `^[A-Z0-9]{3,}$` (search.js line 349). -/
def isValidProductCode (code : String) : Bool :=
  code.length ≥ 3 && code.toList.all (fun c => ('A' ≤ c && c ≤ 'Z') || c.isDigit)

/-- The detail URL of `handleProductDetail` (search.js lines 354-356). -/
def productDetailUrl (code slug : String) : String :=
  if slug ≠ "" then TROLLEY ++ "/product/" ++ slug ++ "/" ++ code
  else TROLLEY ++ "/product/_/" ++ code

/-- Source `handleProductDetail` (search.js lines 348-370): 400 on an
invalid code, 500 with the fetch error message on a fetch failure, 404 on
an empty page, else the parsed detail. -/
def handleProductDetail (fetchO : String → Except String String)
    (parseDetailO : String → String → ProductDetail)
    (code slug : String) : HttpResponse :=
  if code = "" ∨ !isValidProductCode code then
    json 400 (ResponseBody.errorMsg "Invalid product code")
  else
    match fetchO (productDetailUrl code slug) with
    | Except.error msg => json 500 (ResponseBody.errorMsg msg)
    | Except.ok html =>
      if html = "" then json 404 (ResponseBody.errorMsg "Product not found")
      else json 200 (ResponseBody.detailResult (parseDetailO html code))

example : searchSlug "Mature Cheddar!" = "mature-cheddar" := by decide
example : encodeURIComponent "a b&c" = "a%20b%26c" := by decide
example : jsonParseNatList "[0, 2,3]".toList = some [0, 2, 3] := by decide
example : jsonParseNatList "[01]".toList = none := by decide
example : jsonParseNatList "[,]".toList = none := by decide
example : aiSelectBestCandidates true [] none = [0] := by decide

/-! Scanning versus positional matching.  The two global regexes of
`extractItemPrice` start at a pound sign and consume no later pound sign,
so resuming after each match (what `matchAll` does) finds exactly the set
of positions at which the anchored matcher succeeds. -/

/-- Separation property of a matcher: a match is nonempty and no new match
starts strictly inside it. -/
def MatcherSep {α : Type} (M : Matcher α) : Prop :=
  ∀ t len a, M t = some (len, a) → 1 ≤ len ∧ ∀ k, 1 ≤ k → k < len → M (t.drop k) = none

theorem head?_drop_eq (l : List Char) : ∀ n, (l.drop n).head? = l.get? n := by
  induction l with
  | nil => intro n; cases n <;> rfl
  | cons c r ih => intro n; cases n with
    | zero => rfl
    | succ m => simp only [List.drop_succ_cons, List.get?_cons_succ]; exact ih m

theorem mem_of_mem_takeWhile {p : Char → Bool} {c : Char} :
    ∀ {l : Text}, c ∈ l.takeWhile p → p c = true := by
  intro l h
  induction l with
  | nil => simp [List.takeWhile] at h
  | cons d r ih =>
    rw [List.takeWhile] at h
    cases hd : p d with
    | false => simp [hd] at h
    | true =>
      simp only [hd, List.mem_cons] at h
      rcases h with rfl | h
      · exact hd
      · exact ih h

theorem drop_length_takeWhile (p : Char → Bool) (l : Text) :
    l.drop (l.takeWhile p).length = l.dropWhile p := by
  induction l with
  | nil => rfl
  | cons c r ih =>
    by_cases hc : p c <;> simp [List.takeWhile, List.dropWhile, hc, ih]

theorem takeWhile_append_drop_self (p : Char → Bool) (l : Text) :
    l = l.takeWhile p ++ l.drop (l.takeWhile p).length := by
  rw [drop_length_takeWhile]
  exact (List.takeWhile_append_dropWhile p l).symm

theorem ciStartsWith_length {pat : Text} :
    ∀ {t : Text}, ciStartsWith pat t = true → pat.length ≤ t.length := by
  induction pat with
  | nil => intro t _; simp
  | cons p ps ih =>
    intro t h
    cases t with
    | nil => simp [ciStartsWith] at h
    | cons c cs =>
      simp only [ciStartsWith, Bool.and_eq_true] at h
      simpa using Nat.succ_le_succ (ih h.2)

theorem ciStartsWith_take_mem {pat : Text} :
    ∀ {t : Text}, ciStartsWith pat t = true →
      ∀ c ∈ t.take pat.length, c.toLower ∈ pat := by
  induction pat with
  | nil => intro t _ c hc; simp at hc
  | cons p ps ih =>
    intro t h c hc
    cases t with
    | nil => simp [ciStartsWith] at h
    | cons d cs =>
      simp only [ciStartsWith, Bool.and_eq_true, beq_iff_eq] at h
      simp only [List.length_cons, List.take_succ_cons, List.mem_cons] at hc
      rcases hc with rfl | hc
      · exact h.1 ▸ List.mem_cons_self _ _
      · exact List.mem_cons_of_mem _ (ih h.2 c hc)

theorem digitdot_ne_pound {c : Char} (h : isDigitDot c = true) : c ≠ '£' := by
  rintro rfl; revert h; decide

theorem space_ne_pound {c : Char} (h : isSpaceJS c = true) : c ≠ '£' := by
  rintro rfl; revert h; decide

theorem per_ne_pound {c : Char} (h : c.toLower ∈ "per".toList) : c ≠ '£' := by
  rintro rfl; revert h; decide

theorem no_pound_get {body r2 : Text} (hb : ∀ c ∈ body, c ≠ '£') {j : ℕ}
    (hj : j < body.length) : (body ++ r2).get? j ≠ some '£' := by
  rw [List.get?_append hj]
  intro hcontra
  exact hb _ (List.get?_mem hcontra) rfl

theorem mPound_head {t : Text} {p : ℕ × Text} (h : mPound t = some p) :
    ∃ r, t = '£' :: r := by
  unfold mPound at h
  split at h
  · next r => exact ⟨r, rfl⟩
  · simp at h

theorem mPerQual_head {t : Text} {p : ℕ × Unit} (h : mPerQual t = some p) :
    ∃ r, t = '£' :: r := by
  unfold mPerQual at h
  split at h
  · next r => exact ⟨r, rfl⟩
  · simp at h

theorem mPound_sep : MatcherSep mPound := by
  intro t len a h
  unfold mPound at h
  split at h
  case h_2 => simp at h
  case h_1 r =>
    by_cases htok : r.takeWhile isDigitDot = []
    · simp [htok] at h
    · simp only [htok, if_false, Option.some.injEq, Prod.mk.injEq] at h
      obtain ⟨hlen, _⟩ := h
      refine ⟨by omega, ?_⟩
      intro k hk1 hk2
      by_contra hc
      obtain ⟨q, hq⟩ := Option.ne_none_iff_exists'.mp hc
      obtain ⟨r', hr'⟩ := mPound_head hq
      have hhead : (('£' :: r).drop k).head? = some '£' := by rw [hr']; rfl
      have hget : r.get? (k - 1) = some '£' := by
        have h1 : ('£' :: r).drop k = r.drop (k - 1) := by
          cases k with
          | zero => exact absurd hk1 (by norm_num)
          | succ m => simp [List.drop_succ_cons]
        rw [h1, head?_drop_eq] at hhead
        exact hhead
      have hdec := takeWhile_append_drop_self isDigitDot r
      rw [hdec] at hget
      exact no_pound_get
        (fun c hc' => digitdot_ne_pound (mem_of_mem_takeWhile hc'))
        (by omega) hget

theorem mPerQual_sep : MatcherSep mPerQual := by
  intro t len a h
  unfold mPerQual at h
  split at h
  case h_2 => simp at h
  case h_1 r =>
    by_cases htok : r.takeWhile isDigitDot = []
    · simp [htok] at h
    · simp only [htok, if_false] at h
      set tok := r.takeWhile isDigitDot with htokdef
      set r2 := r.drop tok.length with hr2def
      by_cases hws1 : r2.takeWhile isSpaceJS = []
      · simp [hws1] at h
      · simp only [hws1, if_false] at h
        set ws1 := r2.takeWhile isSpaceJS with hws1def
        set r3 := r2.drop ws1.length with hr3def
        by_cases hper : ciStartsWith "per".toList r3 = true
        · simp only [hper, if_true] at h
          by_cases hws2 : (r3.drop 3).takeWhile isSpaceJS = []
          · simp [hws2] at h
          · simp only [hws2, if_false, Option.some.injEq, Prod.mk.injEq] at h
            set ws2 := (r3.drop 3).takeWhile isSpaceJS with hws2def
            obtain ⟨hlen, _⟩ := h
            refine ⟨by omega, ?_⟩
            intro k hk1 hk2
            by_contra hc
            obtain ⟨q, hq⟩ := Option.ne_none_iff_exists'.mp hc
            obtain ⟨r', hr'⟩ := mPerQual_head hq
            have hhead : (('£' :: r).drop k).head? = some '£' := by rw [hr']; rfl
            have hget : r.get? (k - 1) = some '£' := by
              have h1 : ('£' :: r).drop k = r.drop (k - 1) := by
                cases k with
                | zero => exact absurd hk1 (by norm_num)
                | succ m => simp [List.drop_succ_cons]
              rw [h1, head?_drop_eq] at hhead
              exact hhead
            -- decompose r into the consumed body and the remainder
            have hpre3 : (r3.take 3).length = 3 := by
              have hlr := ciStartsWith_length hper
              rw [show ("per".toList.length) = 3 from rfl] at hlr
              simp only [List.length_take]
              omega
            have hdr : r = (tok ++ (ws1 ++ (r3.take 3 ++ ws2))) ++
                ((r3.drop 3).drop ws2.length) := by
              have e1 : r = tok ++ r2 := takeWhile_append_drop_self isDigitDot r
              have e2 : r2 = ws1 ++ r3 := takeWhile_append_drop_self isSpaceJS r2
              have e3 : r3 = r3.take 3 ++ r3.drop 3 := (List.take_append_drop 3 r3).symm
              have e4 : r3.drop 3 = ws2 ++ ((r3.drop 3).drop ws2.length) :=
                takeWhile_append_drop_self isSpaceJS (r3.drop 3)
              calc r = tok ++ r2 := e1
                _ = tok ++ (ws1 ++ r3) := by rw [← e2]
                _ = tok ++ (ws1 ++ (r3.take 3 ++ (ws2 ++ ((r3.drop 3).drop ws2.length)))) := by
                    rw [← e4, ← e3]
                _ = (tok ++ (ws1 ++ (r3.take 3 ++ ws2))) ++
                    ((r3.drop 3).drop ws2.length) := by simp [List.append_assoc]
            have hb : ∀ c ∈ tok ++ (ws1 ++ (r3.take 3 ++ ws2)), c ≠ '£' := by
              intro c hcmem
              rcases List.mem_append.mp hcmem with h1 | h1
              · exact digitdot_ne_pound (mem_of_mem_takeWhile h1)
              rcases List.mem_append.mp h1 with h2 | h2
              · exact space_ne_pound (mem_of_mem_takeWhile h2)
              rcases List.mem_append.mp h2 with h3 | h3
              · exact per_ne_pound (ciStartsWith_take_mem hper c h3)
              · exact space_ne_pound (mem_of_mem_takeWhile h3)
            rw [hdr] at hget
            refine no_pound_get hb ?_ hget
            rw [List.length_append, List.length_append, List.length_append, hpre3]
            omega
        · rw [if_neg hper] at h
          exact Option.noConfusion h

theorem scanAllAux_congr {α : Type} (M : Matcher α) :
    ∀ (f1 f2 : ℕ) (t : Text) (i : ℕ), t.length ≤ f1 → t.length ≤ f2 →
      scanAllAux M f1 t i = scanAllAux M f2 t i := by
  intro f1
  induction f1 with
  | zero =>
    intro f2 t i h1 _
    have : t = [] := List.eq_nil_of_length_eq_zero (by omega)
    subst this
    cases f2 <;> rfl
  | succ f1 ih =>
    intro f2 t i h1 h2
    cases t with
    | nil => cases f2 <;> rfl
    | cons c r =>
      cases f2 with
      | zero => simp at h2
      | succ f2 =>
        cases hM : M (c :: r) with
        | none =>
          simp only [scanAllAux, hM]
          exact ih f2 r (i + 1) (by simp at h1; omega) (by simp at h2; omega)
        | some p =>
          obtain ⟨len, a⟩ := p
          have hd : ((c :: r).drop (max len 1)).length ≤ f1 := by
            simp only [List.length_drop, List.length_cons]
            simp only [List.length_cons] at h1
            omega
          have hd2 : ((c :: r).drop (max len 1)).length ≤ f2 := by
            simp only [List.length_drop, List.length_cons]
            simp only [List.length_cons] at h2
            omega
          simp only [scanAllAux, hM]
          rw [ih f2 _ _ hd hd2]

theorem scanAll_cons {α : Type} (M : Matcher α) (c : Char) (r : Text) (i : ℕ) :
    scanAll M (c :: r) i =
      match M (c :: r) with
      | some (len, a) => (i, a) :: scanAll M ((c :: r).drop (max len 1)) (i + max len 1)
      | none => scanAll M r (i + 1) := by
  show scanAllAux M (r.length + 1) (c :: r) i = _
  cases hM : M (c :: r) with
  | none =>
    simp only [scanAllAux, hM]
    exact scanAllAux_congr M r.length r.length r (i + 1) le_rfl le_rfl
  | some p =>
    obtain ⟨len, a⟩ := p
    have hcg := scanAllAux_congr M r.length ((c :: r).drop (max len 1)).length
      ((c :: r).drop (max len 1)) (i + max len 1)
      (by simp only [List.length_drop, List.length_cons]; omega) le_rfl
    simp only [scanAllAux, hM, scanAll]
    rw [hcg]

theorem posAll_skip {α : Type} (M : Matcher α) :
    ∀ (d : ℕ) (t : Text) (i j len : ℕ), len = j + d → 1 ≤ j →
      (∀ k, 1 ≤ k → k < len → M (t.drop k) = none) →
      posAll M (t.drop j) (i + j) = posAll M (t.drop len) (i + len) := by
  intro d
  induction d with
  | zero =>
    intro t i j len hlen _ _
    subst hlen
    rfl
  | succ d ih =>
    intro t i j len hlen hj hnone
    cases hdrop : t.drop j with
    | nil =>
      have hlt : t.length ≤ j := by
        by_contra hlt
        push_neg at hlt
        have := congrArg List.length hdrop
        simp only [List.length_drop, List.length_nil] at this
        omega
      have h1 : t.drop len = [] := List.drop_eq_nil_of_le (by omega)
      rw [h1]
      rfl
    | cons c r =>
      have hM : M (t.drop j) = none := hnone j hj (by omega)
      rw [hdrop] at hM
      have hr : r = t.drop (j + 1) := by
        have h2 : t.drop (j + 1) = (t.drop j).drop 1 := by
          rw [List.drop_drop]
        rw [h2, hdrop, List.drop_one, List.tail_cons]
      have step : posAll M (c :: r) (i + j) = posAll M (t.drop (j + 1)) (i + (j + 1)) := by
        simp only [posAll, hM, List.nil_append]
        rw [← hr, show i + j + 1 = i + (j + 1) from by omega]
      rw [step]
      exact ih t i (j + 1) len (by omega) (by omega) hnone

theorem scanAll_eq_posAll {α : Type} (M : Matcher α) (hsep : MatcherSep M) :
    ∀ (t : Text) (i : ℕ), scanAll M t i = posAll M t i := by
  suffices h : ∀ (n : ℕ) (t : Text) (i : ℕ), t.length ≤ n → scanAll M t i = posAll M t i by
    intro t i
    exact h t.length t i le_rfl
  intro n
  induction n with
  | zero =>
    intro t i hle
    have : t = [] := List.eq_nil_of_length_eq_zero (by omega)
    subst this
    rfl
  | succ n ih =>
    intro t i hle
    cases t with
    | nil => rfl
    | cons c r =>
      cases hM : M (c :: r) with
      | none =>
        simp only [scanAll_cons, hM]
        have := ih r (i + 1) (by simp only [List.length_cons] at hle; omega)
        simp only [posAll, hM, List.nil_append]
        exact this
      | some p =>
        obtain ⟨len, a⟩ := p
        obtain ⟨hlen1, hinner⟩ := hsep _ _ _ hM
        have hmax : max len 1 = len := by omega
        simp only [scanAll_cons, hM, hmax]
        have hscan := ih ((c :: r).drop len) (i + len)
          (by simp only [List.length_drop, List.length_cons]
              simp only [List.length_cons] at hle
              omega)
        rw [hscan]
        simp only [posAll, hM, List.singleton_append, List.cons.injEq, true_and]
        have hskip := posAll_skip M (len - 1) (c :: r) i 1 len (by omega) le_rfl hinner
        simp only [List.drop_one, List.tail_cons] at hskip
        exact hskip.symm

theorem mem_map_fst_posAll {α : Type} (M : Matcher α) (hM0 : M [] = none) :
    ∀ (t : Text) (j i : ℕ),
      i ∈ (posAll M t j).map Prod.fst ↔
        (j ≤ i ∧ (M (t.drop (i - j))).isSome = true) := by
  intro t
  induction t with
  | nil =>
    intro j i
    simp [posAll, hM0]
  | cons c r ih =>
    intro j i
    have hdr : j < i → (c :: r).drop (i - j) = r.drop (i - (j + 1)) := by
      intro hji
      rw [show i - j = (i - (j + 1)) + 1 from by omega, List.drop_succ_cons]
    cases hM : M (c :: r) with
    | none =>
      simp only [posAll, hM, List.nil_append]
      rw [ih (j + 1) i]
      constructor
      · rintro ⟨h1, h2⟩
        exact ⟨by omega, by rw [hdr (by omega)]; exact h2⟩
      · rintro ⟨h1, h2⟩
        rcases Nat.lt_or_ge j i with hji | hji
        · exact ⟨by omega, by rw [← hdr hji]; exact h2⟩
        · have : i = j := by omega
          subst this
          rw [Nat.sub_self, List.drop_zero, hM] at h2
          cases h2
    | some p =>
      obtain ⟨len, a⟩ := p
      simp only [posAll, hM, List.singleton_append, List.map_cons, List.mem_cons]
      rw [ih (j + 1) i]
      constructor
      · rintro (rfl | ⟨h1, h2⟩)
        · exact ⟨le_rfl, by rw [Nat.sub_self, List.drop_zero, hM]; rfl⟩
        · exact ⟨by omega, by rw [hdr (by omega)]; exact h2⟩
      · rintro ⟨h1, h2⟩
        rcases Nat.lt_or_ge j i with hji | hji
        · right
          exact ⟨by omega, by rw [← hdr hji]; exact h2⟩
        · left
          omega

theorem find?_congr' {α : Type} (p q : α → Bool) :
    ∀ (l : List α), (∀ x ∈ l, p x = q x) → l.find? p = l.find? q := by
  intro l
  induction l with
  | nil => intro _; rfl
  | cons x r ih =>
    intro h
    have hx := h x (List.mem_cons_self x r)
    cases hq : q x with
    | true =>
      rw [List.find?_cons_of_pos _ (by rw [hx, hq]), List.find?_cons_of_pos _ hq]
    | false =>
      rw [List.find?_cons_of_neg _ (by rw [hx, hq]; simp),
        List.find?_cons_of_neg _ (by simp [hq])]
      exact ih (fun y hy => h y (List.mem_cons_of_mem _ hy))

/-- C1 (amended): for every input text, `extractItemPrice` skips exactly
the currency amounts immediately followed by a whitespace-separated
`per `-qualifier (but, against the claim as stated, not the
`each`-qualified ones) and returns the parse of the first remaining
amount, or 0 when every amount is per-qualified or no amount occurs:
its scanning computation coincides with the positional specification
`specItemPrice`. -/
theorem extractItemPrice_eq_spec (t : Text) : extractItemPrice t = specItemPrice t := by
  simp only [extractItemPrice, specItemPrice]
  rw [scanAll_eq_posAll mPound mPound_sep, scanAll_eq_posAll mPerQual mPerQual_sep]
  have hfind : (posAll mPound t 0).find?
        (fun m => decide (m.1 ∉ (posAll mPerQual t 0).map Prod.fst))
      = (posAll mPound t 0).find? (fun m => !(perQualifiedAt t m.1)) := by
    apply find?_congr'
    intro x _
    have hmem := mem_map_fst_posAll mPerQual rfl t 0 x.1
    simp only [Nat.zero_le, true_and, Nat.sub_zero] at hmem
    unfold perQualifiedAt
    by_cases hq : (mPerQual (t.drop x.1)).isSome = true
    · simp [hmem, hq]
    · simp [hmem, hq]
  rw [hfind]

/-- C1 counterexample input: an `each`-qualified amount followed by an
unqualified amount. -/
def c1text : Text := "£0.55 each £2.50".toList

/-- C1 counterexample: the claim says `extractItemPrice` skips amounts
qualified by `each`; on this text the amount at position 0 is
`each`-qualified and an unqualified amount occurs at position 11, yet the
function returns the qualified amount 0.55, not 2.50. -/
theorem extractItemPrice_each_counterexample :
    extractItemPrice c1text = jsParseFloat "0.55".toList ∧
    eachQualifiedAt c1text 0 = true ∧
    amountAt c1text 11 = true ∧
    perQualifiedAt c1text 11 = false ∧
    eachQualifiedAt c1text 11 = false ∧
    extractItemPrice c1text ≠ jsParseFloat "2.50".toList := by
  refine ⟨by decide, by decide, by decide, by decide, by decide, by decide⟩

theorem parseSegment_fields {cfg : StoreConfig} {seg : Text} {e : StorePriceEntry}
    (h : parseSegment cfg seg = some e) :
    ∃ price rest, segmentPrices (cleanSegment seg) = price :: rest ∧
      e.store = cfg.name ∧ e.price = price ∧
      e.loyaltyPrice = (segmentLoyalty cfg (cleanSegment seg) price).1 ∧
      e.bestPrice = effPrice e.loyaltyPrice e.price := by
  unfold parseSegment at h
  split at h
  · cases h
  · split at h
    · cases h
    · next price rest hp =>
      refine ⟨price, rest, hp, ?_⟩
      injection h with h2
      subst h2
      exact ⟨rfl, rfl, rfl, rfl⟩

theorem segmentLoyalty_alt_guard (cfg : StoreConfig) (sc : Text) (price : JSNum)
    (hprim : ∀ kw sch, cfg.loyaltyKeyword = some (kw, sch) →
        firstMatch (mLoyalty kw.toList) sc = none)
    {lp : JSNum} (hlp : (segmentLoyalty cfg sc price).1 = some lp) :
    lp.lt price = true := by
  unfold segmentLoyalty at hlp
  split at hlp
  · simp at hlp
  · next kws heq =>
    split at hlp
    · next tok hfm =>
      have h0 := hprim kws.1 kws.2 (by rw [heq])
      rw [h0] at hfm
      cases hfm
    · split at hlp
      · next tok halt =>
        split at hlp
        · next hlt =>
          simp only [Option.some.injEq] at hlp
          rw [hlp] at hlt
          exact hlt
        · simp at hlp
      · simp at hlp

/-- C2 (amended): a loyalty price accepted from the alternate textual
ordering `£X SCHEME` (which the parser only consults when the primary
ordering `SCHEME price £X` finds no match in the cleaned segment) is
always strictly below the item price.  A loyalty price from the primary
ordering is accepted unconditionally, so the strictly-less invariant does
not hold for it (see the counterexample). -/
theorem parseSegment_loyalty_alt_guard (cfg : StoreConfig) (seg : Text)
    (e : StorePriceEntry) (lp : JSNum)
    (h : parseSegment cfg seg = some e)
    (hlp : e.loyaltyPrice = some lp)
    (hprim : ∀ kw sch, cfg.loyaltyKeyword = some (kw, sch) →
        firstMatch (mLoyalty kw.toList) (cleanSegment seg) = none) :
    lp.lt e.price = true := by
  obtain ⟨price, rest, _, _, hpr, hloy, _⟩ := parseSegment_fields h
  rw [hpr]
  apply segmentLoyalty_alt_guard cfg (cleanSegment seg) price hprim
  rw [← hloy, hlp]

/-- C2 counterexample entry: the value the parser produces on the segment
` £2.00 Clubcard Price £2.50` for the Tesco configuration. -/
def c2entry : StorePriceEntry :=
  { store := "Tesco", price := JSNum.num 2, pricePerUnit := none, unit := none,
    loyaltyPrice := some (JSNum.num (5/2)), loyaltyScheme := some "Clubcard",
    promotion := none, bestPrice := JSNum.num 2 }

/-- C2 counterexample: on the primary textual ordering `SCHEME price £X`
the parser accepts a loyalty price of 2.50 against an item price of 2.00,
so the produced entry violates the claimed strictly-less invariant. -/
theorem parseSegment_loyalty_counterexample :
    parseSegment tescoConfig " £2.00 Clubcard Price £2.50".toList = some c2entry ∧
    c2entry.loyaltyPrice = some (JSNum.num (5/2)) ∧
    c2entry.price = JSNum.num 2 ∧
    (JSNum.num (5/2)).lt c2entry.price = false := by
  refine ⟨by decide, by decide, by decide, by decide⟩

/-- C2 witness segment (alternate ordering only). -/
def c2wseg : Text := " £3.00 £2.00 Clubcard".toList

/-- C2 witness entry. -/
def c2wentry : StorePriceEntry :=
  { store := "Tesco", price := JSNum.num 3, pricePerUnit := none, unit := none,
    loyaltyPrice := some (JSNum.num 2), loyaltyScheme := some "Clubcard",
    promotion := none, bestPrice := JSNum.num 2 }

theorem parseSegment_loyalty_alt_guard_witness :
    parseSegment tescoConfig c2wseg = some c2wentry ∧
    firstMatch (mLoyalty "clubcard".toList) (cleanSegment c2wseg) = none ∧
    (JSNum.num 2).lt (JSNum.num 3) = true := by
  refine ⟨by decide, by decide, ?_⟩
  exact parseSegment_loyalty_alt_guard tescoConfig c2wseg c2wentry (JSNum.num 2)
    (by decide) (by decide)
    (by intro kw sch hkw
        have h1 : kw = "clubcard" := by
          have := hkw
          simp only [tescoConfig, Option.some.injEq, Prod.mk.injEq] at this
          exact this.1.symm
        subst h1
        decide)

/-- C3 (amended): for every entry the detail parser produces,
`bestPrice` is the effective-price ternary of the source: it equals the
loyalty price when that is non-null, numeric, nonzero and strictly below
the price (the JS truthiness test makes a zero or NaN loyalty price fall
back to the item price, against the claim as stated), and equals `price`
in every other case; whenever `price` is numeric, `bestPrice` is numeric
and at most `price`. -/
theorem parseSegment_bestPrice (cfg : StoreConfig) (seg : Text) (e : StorePriceEntry)
    (h : parseSegment cfg seg = some e) :
    (∀ lp p, e.loyaltyPrice = some (JSNum.num lp) → e.price = JSNum.num p →
       lp ≠ 0 → lp < p → e.bestPrice = JSNum.num lp) ∧
    (e.loyaltyPrice = none → e.bestPrice = e.price) ∧
    (e.loyaltyPrice = some (JSNum.num 0) → e.bestPrice = e.price) ∧
    (e.loyaltyPrice = some JSNum.nan → e.bestPrice = e.price) ∧
    (∀ lp p, e.loyaltyPrice = some (JSNum.num lp) → e.price = JSNum.num p →
       ¬ lp < p → e.bestPrice = e.price) ∧
    (∀ p, e.price = JSNum.num p → ∃ b, e.bestPrice = JSNum.num b ∧ b ≤ p) := by
  obtain ⟨price, rest, _, _, hpr, _, hbest⟩ := parseSegment_fields h
  refine ⟨?_, ?_, ?_, ?_, ?_, ?_⟩
  · intro lp p hlp hp hne hlt
    rw [hbest, hlp, hp]
    simp [effPrice, JSNum.truthy, JSNum.lt, hne, hlt]
  · intro hlp
    rw [hbest, hlp]
    rfl
  · intro hlp
    rw [hbest, hlp]
    simp [effPrice, JSNum.truthy]
  · intro hlp
    rw [hbest, hlp]
    simp [effPrice, JSNum.truthy]
  · intro lp p hlp hp hnlt
    rw [hbest, hlp, hp]
    simp [effPrice, JSNum.lt, hnlt]
  · intro p hp
    rw [hbest, hp]
    cases hl : e.loyaltyPrice with
    | none => exact ⟨p, rfl, le_rfl⟩
    | some l =>
      cases l with
      | nan => exact ⟨p, by simp [effPrice, JSNum.truthy], le_rfl⟩
      | num lq =>
        by_cases hne : lq = 0
        · subst hne
          exact ⟨p, by simp [effPrice, JSNum.truthy], le_rfl⟩
        · by_cases hlt : lq < p
          · exact ⟨lq, by simp [effPrice, JSNum.truthy, JSNum.lt, hne, hlt], le_of_lt hlt⟩
          · exact ⟨p, by simp [effPrice, JSNum.truthy, JSNum.lt, hne, hlt], le_rfl⟩

/-- C3 counterexample entry: the value produced on the segment
` £2.50 Clubcard Price £0` (a parsed loyalty price of zero). -/
def c3entry : StorePriceEntry :=
  { store := "Tesco", price := JSNum.num (5/2), pricePerUnit := none, unit := none,
    loyaltyPrice := some (JSNum.num 0), loyaltyScheme := some "Clubcard",
    promotion := none, bestPrice := JSNum.num (5/2) }

/-- C3 counterexample: the entry has a non-null loyalty price 0 strictly
below the price 2.50, so the claim says `bestPrice` equals the loyalty
price; the code, testing JS truthiness, sets `bestPrice` to the item
price instead. -/
theorem parseSegment_bestPrice_counterexample :
    parseSegment tescoConfig " £2.50 Clubcard Price £0".toList = some c3entry ∧
    c3entry.loyaltyPrice = some (JSNum.num 0) ∧
    c3entry.price = JSNum.num (5/2) ∧
    (0 : ℚ) < 5/2 ∧
    c3entry.bestPrice = JSNum.num (5/2) ∧
    c3entry.bestPrice ≠ JSNum.num 0 := by
  refine ⟨by decide, by decide, by decide, by decide, by decide, by decide⟩

/-- C3 witness segment. -/
def c3wseg : Text := " £2.50 Clubcard Price £2.00".toList

/-- C3 witness entry. -/
def c3wentry : StorePriceEntry :=
  { store := "Tesco", price := JSNum.num (5/2), pricePerUnit := none, unit := none,
    loyaltyPrice := some (JSNum.num 2), loyaltyScheme := some "Clubcard",
    promotion := none, bestPrice := JSNum.num 2 }

theorem parseSegment_bestPrice_witness :
    parseSegment tescoConfig c3wseg = some c3wentry ∧
    c3wentry.bestPrice = JSNum.num 2 := by
  refine ⟨by decide, ?_⟩
  exact (parseSegment_bestPrice tescoConfig c3wseg c3wentry (by decide)).1 2 (5/2)
    (by decide) (by decide) (by decide) (by decide)

theorem JSNum.lt_irrefl (v : JSNum) : v.lt v = false := by
  cases v with
  | nan => rfl
  | num q => simp [JSNum.lt]

theorem JSNum.lt_nan (v : JSNum) : v.lt JSNum.nan = false := by
  cases v <;> rfl

theorem JSNum.lt_trans {a b c : JSNum} (h1 : a.lt b = true) (h2 : b.lt c = true) :
    a.lt c = true := by
  cases a <;> cases b <;> cases c <;> simp [JSNum.lt] at *
  exact h1.trans h2

theorem mapGet_set_self (m : RowMap) (k : String) (v : ComparisonRow) :
    mapGet (mapSet m k v) k = some v := by
  induction m with
  | nil => simp [mapSet, mapGet]
  | cons kv rest ih =>
    obtain ⟨k', v'⟩ := kv
    by_cases hk : k' = k
    · simp [mapSet, mapGet, hk]
    · simp [mapSet, mapGet, hk, ih]

theorem mapGet_set_ne (m : RowMap) {k k' : String} (v : ComparisonRow)
    (h : k' ≠ k) : mapGet (mapSet m k v) k' = mapGet m k' := by
  have hk' : ¬ k = k' := fun hh => h hh.symm
  induction m with
  | nil =>
    simp only [mapSet, mapGet]
    rw [if_neg hk']
  | cons kv rest ih =>
    obtain ⟨k0, v0⟩ := kv
    by_cases hk : k0 = k
    · subst hk
      simp only [mapSet, if_pos rfl, mapGet]
      rw [if_neg hk', if_neg hk']
    · simp only [mapSet, if_neg hk, mapGet]
      by_cases hk2 : k0 = k'
      · simp [hk2]
      · simp [hk2, ih]

theorem effPrice_orNull (lp : Option JSNum) (p : JSNum) :
    effPrice (jsOrNullNum lp) p = effPrice lp p := by
  cases lp with
  | none => rfl
  | some v =>
    by_cases hv : v.truthy = true
    · simp [jsOrNullNum, hv]
    · simp only [jsOrNullNum, Bool.not_eq_true] at *
      simp [hv, effPrice]

/-- All primary store-price entries with their detail context, in the
traversal order of the nested loops of merge step 3. -/
def primaryEntries (drs : List DetailResult) : List (DetailResult × StorePriceEntry) :=
  (drs.map (fun dr => dr.detail.storePrices.map (fun sp => (dr, sp)))).flatten

/-- The primary merge considers an entry for a given store when the entry
carries that store name and survives the falsy-store/falsy-price skip. -/
def entryMatches (store : String) (x : DetailResult × StorePriceEntry) : Bool :=
  decide (x.2.store = store) && !decide (x.2.store = "") && x.2.price.truthy

/-- The entries the primary merge considers for a store, in order. -/
def entriesFor (drs : List DetailResult) (store : String) :
    List (DetailResult × StorePriceEntry) :=
  (primaryEntries drs).filter (entryMatches store)

/-- The effective price of a primary entry, exactly the ternary of merge
step 3 (a zero or NaN loyalty price is ignored by JS truthiness). -/
def entryEff (x : DetailResult × StorePriceEntry) : JSNum :=
  effPrice x.2.loyaltyPrice x.2.price

/-- First-strict-minimum fold: the seed (or first element) is replaced
only by a strictly cheaper later element, so ties keep the first seen. -/
def keptFold (seed : Option (DetailResult × StorePriceEntry))
    (l : List (DetailResult × StorePriceEntry)) :
    Option (DetailResult × StorePriceEntry) :=
  l.foldl (fun acc x =>
    match acc with
    | none => some x
    | some b => if (entryEff x).lt (entryEff b) then some x else some b) seed

/-- The entry merge step 3 keeps for a store. -/
def keptEntry (drs : List DetailResult) (store : String) :
    Option (DetailResult × StorePriceEntry) :=
  keptFold none (entriesFor drs store)

theorem primaryPass_eq_foldl (drs : List DetailResult) :
    primaryPass drs =
      (primaryEntries drs).foldl (fun m x => primaryStep x.1 m x.2) [] := by
  unfold primaryPass primaryEntries
  generalize ([] : RowMap) = init
  induction drs generalizing init with
  | nil => rfl
  | cons dr rest ih =>
    simp only [List.foldl_cons, List.map_cons, List.flatten_cons, List.foldl_append]
    rw [ih]
    congr 1
    rw [List.foldl_map]

theorem foldl_primaryStep_get (store : String) :
    ∀ (l : List (DetailResult × StorePriceEntry)) (m : RowMap)
      (seed : Option (DetailResult × StorePriceEntry)),
      mapGet m store = seed.map (fun x => mkRow x.1 x.2) →
      mapGet (l.foldl (fun m x => primaryStep x.1 m x.2) m) store
        = (keptFold seed (l.filter (entryMatches store))).map
            (fun x => mkRow x.1 x.2) := by
  intro l
  induction l with
  | nil =>
    intro m seed h
    simpa [keptFold] using h
  | cons x r ih =>
    intro m seed h
    by_cases hx : entryMatches store x = true
    · have hparts := hx
      simp only [entryMatches, Bool.and_eq_true, decide_eq_true_eq,
        Bool.not_eq_true', decide_eq_false_iff_not] at hparts
      obtain ⟨⟨hst, hne⟩, htr⟩ := hparts
      rw [List.foldl_cons, List.filter_cons_of_pos hx]
      cases seed with
      | none =>
        have hm : mapGet m store = none := by simpa using h
        have hstep : primaryStep x.1 m x.2 = mapSet m x.2.store (mkRow x.1 x.2) := by
          unfold primaryStep
          rw [if_neg hne, if_neg (by simp [htr]), hst, hm]
        rw [hstep]
        have hkf : keptFold none (x :: r.filter (entryMatches store))
            = keptFold (some x) (r.filter (entryMatches store)) := rfl
        rw [hkf]
        apply ih
        rw [hst, mapGet_set_self]
        rfl
      | some b =>
        have hm : mapGet m store = some (mkRow b.1 b.2) := by simpa using h
        have heffb : effPrice (mkRow b.1 b.2).loyaltyPrice (mkRow b.1 b.2).price
            = entryEff b := by
          simp only [mkRow, entryEff]
          rw [effPrice_orNull]
        have hkf : keptFold (some b) (x :: r.filter (entryMatches store))
            = keptFold (if (entryEff x).lt (entryEff b) then some x else some b)
                (r.filter (entryMatches store)) := rfl
        rw [hkf]
        by_cases hlt : (entryEff x).lt (entryEff b) = true
        · have hstep : primaryStep x.1 m x.2 = mapSet m x.2.store (mkRow x.1 x.2) := by
            unfold primaryStep
            rw [if_neg hne, if_neg (by simp [htr]), hst, hm]
            dsimp only
            rw [heffb]
            rw [show entryEff x = effPrice x.2.loyaltyPrice x.2.price from rfl] at hlt
            rw [if_pos hlt]
          rw [hstep, if_pos hlt]
          apply ih
          rw [hst, mapGet_set_self]
          rfl
        · have hstep : primaryStep x.1 m x.2 = m := by
            unfold primaryStep
            rw [if_neg hne, if_neg (by simp [htr]), hst, hm]
            dsimp only
            rw [heffb]
            rw [show entryEff x = effPrice x.2.loyaltyPrice x.2.price from rfl] at hlt
            rw [if_neg (by simpa using hlt)]
          rw [hstep, if_neg hlt]
          exact ih m (some b) h
    · rw [List.foldl_cons, List.filter_cons_of_neg hx]
      apply ih
      suffices hsame : mapGet (primaryStep x.1 m x.2) store = mapGet m store by
        rw [hsame]; exact h
      unfold primaryStep
      by_cases h1 : x.2.store = ""
      · rw [if_pos h1]
      · rw [if_neg h1]
        by_cases h2 : x.2.price.truthy = true
        · have h3 : ¬ x.2.store = store := by
            intro heq
            have h1' : ¬ store = "" := heq ▸ h1
            exact hx (by simp [entryMatches, heq, h1', h2])
          rw [if_neg (by simp [h2])]
          have hne3 : store ≠ x.2.store := fun hh => h3 hh.symm
          cases hg : mapGet m x.2.store with
          | none =>
            dsimp only
            rw [mapGet_set_ne _ _ hne3]
          | some ex =>
            dsimp only
            by_cases hlt : (effPrice x.2.loyaltyPrice x.2.price).lt
                (effPrice ex.loyaltyPrice ex.price) = true
            · rw [if_pos hlt, mapGet_set_ne _ _ hne3]
            · rw [if_neg hlt]
        · rw [if_pos (by simp [Bool.not_eq_true] at h2; simp [h2])]

theorem primaryPass_get (drs : List DetailResult) (store : String) :
    mapGet (primaryPass drs) store
      = (keptEntry drs store).map (fun x => mkRow x.1 x.2) := by
  rw [primaryPass_eq_foldl]
  have h := foldl_primaryStep_get store (primaryEntries drs) [] none rfl
  simpa [keptEntry, entriesFor] using h

theorem keptFold_mem :
    ∀ (l : List (DetailResult × StorePriceEntry))
      (seed : Option (DetailResult × StorePriceEntry)) (x : DetailResult × StorePriceEntry),
      keptFold seed l = some x → seed = some x ∨ x ∈ l := by
  intro l
  induction l with
  | nil => intro seed x h; exact Or.inl h
  | cons a r ih =>
    intro seed x h
    rcases ih _ x h with hs | hm
    · cases seed with
      | none =>
        dsimp only at hs
        injection hs with hs2
        exact Or.inr (hs2 ▸ List.mem_cons_self a r)
      | some b =>
        dsimp only at hs
        by_cases hlt : (entryEff a).lt (entryEff b) = true
        · rw [if_pos hlt] at hs
          injection hs with hs2
          exact Or.inr (hs2 ▸ List.mem_cons_self a r)
        · rw [if_neg hlt] at hs
          exact Or.inl hs
    · exact Or.inr (List.mem_cons_of_mem _ hm)

theorem keptFold_not_lt :
    ∀ (l : List (DetailResult × StorePriceEntry))
      (seed : Option (DetailResult × StorePriceEntry)) (x : DetailResult × StorePriceEntry),
      keptFold seed l = some x →
      (∀ y ∈ l, (entryEff y).lt (entryEff x) = false) ∧
      (∀ b, seed = some b → (entryEff b).lt (entryEff x) = false) ∧
      (∀ b, seed = some b → entryEff b = JSNum.nan → x = b) := by
  intro l
  induction l with
  | nil =>
    intro seed x h
    refine ⟨by simp, ?_, ?_⟩
    · intro b hb
      rw [hb] at h
      injection h with h2
      subst h2
      exact JSNum.lt_irrefl _
    · intro b hb _
      rw [hb] at h
      injection h with h2
      exact h2.symm
  | cons a r ih =>
    intro seed x h
    obtain ⟨ihl, ihseed, ihnan⟩ := ih _ x h
    cases seed with
    | none =>
      refine ⟨?_, ?_, ?_⟩
      · intro y hy
        rcases List.mem_cons.mp hy with rfl | hyr
        · exact ihseed y rfl
        · exact ihl y hyr
      · intro b hb
        cases hb
      · intro b hb
        cases hb
    | some b =>
      by_cases hlt : (entryEff a).lt (entryEff b) = true
      · have hax : (entryEff a).lt (entryEff x) = false :=
          ihseed a (by dsimp only; rw [if_pos hlt])
        refine ⟨?_, ?_, ?_⟩
        · intro y hy
          rcases List.mem_cons.mp hy with rfl | hyr
          · exact hax
          · exact ihl y hyr
        · intro c hc
          injection hc with hc2
          subst hc2
          cases hbx : (entryEff b).lt (entryEff x) with
          | false => rfl
          | true => exact absurd (JSNum.lt_trans hlt hbx) (by simp [hax])
        · intro c hc hcnan
          injection hc with hc2
          subst hc2
          rw [hcnan, JSNum.lt_nan] at hlt
          cases hlt
      · have hbx : (entryEff b).lt (entryEff x) = false :=
          ihseed b (by dsimp only; rw [if_neg hlt])
        have hbnan : entryEff b = JSNum.nan → x = b :=
          ihnan b (by dsimp only; rw [if_neg hlt])
        refine ⟨?_, ?_, ?_⟩
        · intro y hy
          rcases List.mem_cons.mp hy with rfl | hyr
          · cases hax : (entryEff y).lt (entryEff x) with
            | false => rfl
            | true =>
              exfalso
              cases hb : entryEff b with
              | nan =>
                have hxb := hbnan hb
                rw [hxb, hb, JSNum.lt_nan] at hax
                cases hax
              | num qb =>
                cases hex : entryEff x with
                | nan => rw [hex, JSNum.lt_nan] at hax; cases hax
                | num qx =>
                  cases hey : entryEff y with
                  | nan => rw [hey] at hax; simp [JSNum.lt] at hax
                  | num qy =>
                    rw [hey, hex] at hax
                    rw [hey, hb] at hlt
                    rw [hb, hex] at hbx
                    simp only [JSNum.lt, decide_eq_true_eq] at hax
                    simp only [JSNum.lt, decide_eq_false_iff_not] at hbx
                    have hlt' : ¬ qy < qb := by
                      intro hc
                      exact hlt (by simp [JSNum.lt, hc])
                    linarith
          · exact ihl y hyr
        · intro c hc
          injection hc with hc2
          subst hc2
          exact hbx
        · intro c hc hcnan
          injection hc with hc2
          subst hc2
          exact hbnan hcnan

/-- C5 (amended): in merge step 3 the row kept for each store is exactly
the first-seen entry with the strictly lowest effective price among the
entries for that store that survive the falsy-store/falsy-price skip (the
0-price sentinel and NaN entries are excluded, and effective price uses JS
truthiness, so a zero loyalty price does not count; the claim as frozen
quantifies over all entries without these exclusions, see the
counterexample), and that entry is a minimum: no considered entry for the
store has a strictly lower effective price. -/
theorem primary_merge_keeps_first_cheapest (drs : List DetailResult) (store : String) :
    mapGet (primaryPass drs) store
        = (keptEntry drs store).map (fun x => mkRow x.1 x.2) ∧
    (∀ x, keptEntry drs store = some x →
        x ∈ entriesFor drs store ∧
        ∀ y ∈ entriesFor drs store, (entryEff y).lt (entryEff x) = false) := by
  refine ⟨primaryPass_get drs store, ?_⟩
  intro x hx
  constructor
  · rcases keptFold_mem _ _ _ hx with hs | hm
    · cases hs
    · exact hm
  · exact (keptFold_not_lt _ _ _ hx).1

/-- Effective price as the frozen claim words it (loyaltyPrice if non-null
and lower, else price) — no JS truthiness, for comparison with the code. -/
def claimEffPrice (lp : Option JSNum) (p : JSNum) : JSNum :=
  match lp with
  | some l => if l.lt p then l else p
  | none => p

/-- C5 counterexample fixture: a detail result whose store-price list for
Tesco holds a 0-price sentinel entry followed by a 2.00 entry. -/
def c5e1 : StorePriceEntry :=
  { store := "Tesco", price := JSNum.num 0, pricePerUnit := none, unit := none,
    loyaltyPrice := none, loyaltyScheme := none, promotion := none,
    bestPrice := JSNum.num 0 }

def c5e2 : StorePriceEntry :=
  { store := "Tesco", price := JSNum.num 2, pricePerUnit := none, unit := none,
    loyaltyPrice := none, loyaltyScheme := none, promotion := none,
    bestPrice := JSNum.num 2 }

def c5stub : ProductStub :=
  { name := "Cheddar 400g", code := "ABC123", slug := "cheddar", store := "Tesco",
    price := JSNum.num 2, wasPrice := none, weight := some "400g",
    pricePerUnit := none, unit := none,
    imageUrl := "https://www.trolley.co.uk/img/product/ABC123",
    productUrl := "https://www.trolley.co.uk/product/cheddar/ABC123" }

def c5detail : ProductDetail :=
  { code := "ABC123", name := "Cheddar 400g", weight := some "400g",
    imageUrl := none, storePrices := [c5e1, c5e2], alternatives := [],
    priceHistory := { usual := none, highest := none }, source := "trolley.co.uk" }

def c5dr : DetailResult :=
  { product := c5stub, detail := c5detail,
    detailUrl := "https://www.trolley.co.uk/product/cheddar/ABC123" }

def c5input : List DetailResult := [c5dr]

/-- C5 counterexample: among all entries for Tesco the claim effective
price of the first entry is 0, strictly below the second entry, so the
claim as frozen demands the first entry be kept; the merge skips the
0-price sentinel and keeps the 2.00 entry. -/
theorem primary_merge_counterexample :
    (mapGet (primaryPass c5input) "Tesco").map ComparisonRow.price
        = some (JSNum.num 2) ∧
    c5e1 ∈ c5dr.detail.storePrices ∧ c5e1.store = "Tesco" ∧
    claimEffPrice c5e1.loyaltyPrice c5e1.price = JSNum.num 0 ∧
    claimEffPrice c5e2.loyaltyPrice c5e2.price = JSNum.num 2 ∧
    (JSNum.num 0).lt (JSNum.num 2) = true := by
  refine ⟨by decide, by decide, by decide, by decide, by decide, by decide⟩

theorem primary_merge_keeps_first_cheapest_witness :
    keptEntry c5input "Tesco" = some (c5dr, c5e2) ∧
    ((c5dr, c5e2) ∈ entriesFor c5input "Tesco" ∧
      ∀ y ∈ entriesFor c5input "Tesco",
        (entryEff y).lt (entryEff (c5dr, c5e2)) = false) := by
  refine ⟨by decide, ?_⟩
  exact (primary_merge_keeps_first_cheapest c5input "Tesco").2 (c5dr, c5e2) (by decide)

/-- All alternatives entries across the detail results, in the traversal
order of the nested loops of merge step 4. -/
def altEntries (drs : List DetailResult) : List AltEntry :=
  (drs.map (fun dr => dr.detail.alternatives)).flatten

theorem altsPass_eq_foldl (drs : List DetailResult) (m : RowMap) :
    altsPass drs m = (altEntries drs).foldl altStep m := by
  unfold altsPass altEntries
  induction drs generalizing m with
  | nil => rfl
  | cons dr rest ih =>
    simp only [List.foldl_cons, List.map_cons, List.flatten_cons, List.foldl_append]
    rw [ih]

theorem altStep_preserve {m : RowMap} {store : String} {r : ComparisonRow}
    (alt : AltEntry) (h : mapGet m store = some r) :
    mapGet (altStep m alt) store = some r := by
  unfold altStep
  by_cases h1 : alt.store = ""
  · rw [if_pos h1]; exact h
  rw [if_neg h1]
  by_cases h2 : (mapGet m alt.store).isSome = true
  · rw [if_pos h2]; exact h
  rw [if_neg h2]
  by_cases h3 : (!alt.price.truthy) = true
  · rw [if_pos h3]; exact h
  rw [if_neg h3]
  by_cases h4 : alt.price.le (JSNum.num 0) = true
  · rw [if_pos h4]; exact h
  rw [if_neg h4]
  have hne : store ≠ alt.store := by
    intro heq
    rw [← heq] at h2
    exact h2 (by rw [h]; rfl)
  rw [mapGet_set_ne _ _ hne]
  exact h

theorem foldl_altStep_preserve :
    ∀ (l : List AltEntry) (m : RowMap) (store : String) (r : ComparisonRow),
      mapGet m store = some r → mapGet (l.foldl altStep m) store = some r := by
  intro l
  induction l with
  | nil => intro m store r h; exact h
  | cons a t ih =>
    intro m store r h
    exact ih _ _ _ (altStep_preserve a h)

theorem foldl_altStep_new :
    ∀ (l : List AltEntry) (m : RowMap) (store : String) (r : ComparisonRow),
      mapGet (l.foldl altStep m) store = some r →
      mapGet m store = some r ∨ ∃ alt ∈ l, alt.store = store ∧ r = mkAltRow alt := by
  intro l
  induction l with
  | nil => intro m store r h; exact Or.inl h
  | cons a t ih =>
    intro m store r h
    rcases ih _ _ _ h with h1 | ⟨alt, hmem, hst, hr⟩
    · unfold altStep at h1
      by_cases c1 : a.store = ""
      · rw [if_pos c1] at h1; exact Or.inl h1
      rw [if_neg c1] at h1
      by_cases c2 : (mapGet m a.store).isSome = true
      · rw [if_pos c2] at h1; exact Or.inl h1
      rw [if_neg c2] at h1
      by_cases c3 : (!a.price.truthy) = true
      · rw [if_pos c3] at h1; exact Or.inl h1
      rw [if_neg c3] at h1
      by_cases c4 : a.price.le (JSNum.num 0) = true
      · rw [if_pos c4] at h1; exact Or.inl h1
      rw [if_neg c4] at h1
      by_cases c5 : store = a.store
      · rw [c5, mapGet_set_self] at h1
        injection h1 with h2
        exact Or.inr ⟨a, List.mem_cons_self a t, c5.symm, h2.symm⟩
      · rw [mapGet_set_ne _ _ c5] at h1
        exact Or.inl h1
    · exact Or.inr ⟨alt, List.mem_cons_of_mem _ hmem, hst, hr⟩

theorem keptFold_eq_none :
    ∀ (l : List (DetailResult × StorePriceEntry))
      (seed : Option (DetailResult × StorePriceEntry)),
      keptFold seed l = none → seed = none ∧ l = [] := by
  intro l
  induction l with
  | nil => intro seed h; exact ⟨h, rfl⟩
  | cons a r ih =>
    intro seed h
    obtain ⟨hs, _⟩ := ih _ h
    exfalso
    cases seed with
    | none =>
      dsimp only at hs
      cases hs
    | some b =>
      dsimp only at hs
      by_cases hlt : (entryEff a).lt (entryEff b) = true
      · rw [if_pos hlt] at hs; cases hs
      · rw [if_neg hlt] at hs; cases hs

theorem primaryPass_isSome_of_entry {drs : List DetailResult} {store : String}
    {dr : DetailResult} {sp : StorePriceEntry}
    (hdr : dr ∈ drs) (hsp : sp ∈ dr.detail.storePrices) (hst : sp.store = store)
    (hne : sp.store ≠ "") (htr : sp.price.truthy = true) :
    (mapGet (primaryPass drs) store).isSome = true := by
  rw [primaryPass_get]
  cases hk : keptEntry drs store with
  | some x => rfl
  | none =>
    exfalso
    obtain ⟨_, hl⟩ := keptFold_eq_none _ _ hk
    have hmem : (dr, sp) ∈ entriesFor drs store := by
      unfold entriesFor
      rw [List.mem_filter]
      constructor
      · unfold primaryEntries
        rw [List.mem_flatten]
        exact ⟨_, List.mem_map_of_mem _ hdr, List.mem_map_of_mem _ hsp⟩
      · simp [entryMatches, hst, hst ▸ hne, htr]
    rw [hl] at hmem
    cases hmem

/-- C4 (amended): a store that appears in some primary store-price entry
with a non-empty store name and a truthy (nonzero, non-NaN) price always
gets a primary-sourced output row: the alternatives pass never changes the
row the primary merge chose for it.  Conversely, a store present in the
merged output but absent from the primary merge map can only have come
from some detail result's alternatives list.  (The claim as frozen
quantifies over stores of arbitrary primary entries; a store appearing
only in 0-price sentinel entries is skipped by the primary merge and can
be filled from an alternative, see the counterexample.) -/
theorem merge_primary_precedence (drs : List DetailResult) (store : String) :
    ((∃ dr ∈ drs, ∃ sp ∈ dr.detail.storePrices,
        sp.store = store ∧ sp.store ≠ "" ∧ sp.price.truthy = true) →
      mapGet (mergeMap drs) store = mapGet (primaryPass drs) store ∧
      (mapGet (primaryPass drs) store).isSome = true) ∧
    ((mapGet (mergeMap drs) store).isSome = true →
      (mapGet (primaryPass drs) store).isSome = true ∨
      ∃ dr ∈ drs, ∃ alt ∈ dr.detail.alternatives, alt.store = store) := by
  constructor
  · rintro ⟨dr, hdr, sp, hsp, hst, hne, htr⟩
    have hsome := primaryPass_isSome_of_entry hdr hsp hst hne htr
    obtain ⟨r, hr⟩ := Option.isSome_iff_exists.mp hsome
    have hpres : mapGet (mergeMap drs) store = some r := by
      unfold mergeMap
      rw [altsPass_eq_foldl]
      exact foldl_altStep_preserve _ _ _ _ hr
    rw [hpres, hr]
    exact ⟨rfl, rfl⟩
  · intro hsome
    obtain ⟨r, hr⟩ := Option.isSome_iff_exists.mp hsome
    unfold mergeMap at hr
    rw [altsPass_eq_foldl] at hr
    rcases foldl_altStep_new _ _ _ _ hr with h1 | ⟨alt, hmem, hst, _⟩
    · exact Or.inl (by rw [h1]; rfl)
    · right
      unfold altEntries at hmem
      rw [List.mem_flatten] at hmem
      obtain ⟨l, hl, halt⟩ := hmem
      rw [List.mem_map] at hl
      obtain ⟨dr, hdr, rfl⟩ := hl
      exact ⟨dr, hdr, alt, halt, hst⟩

/-- C4 counterexample fixture: the only primary entry for Aldi carries the
0-price sentinel, and an Aldi alternative with a real price exists. -/
def c4sp : StorePriceEntry :=
  { store := "Aldi", price := JSNum.num 0, pricePerUnit := none, unit := none,
    loyaltyPrice := none, loyaltyScheme := none, promotion := none,
    bestPrice := JSNum.num 0 }

def c4alt : AltEntry :=
  { name := "Aldi Mature Cheddar 400g", code := "XYZ789", slug := "aldi-cheddar",
    store := "Aldi", price := JSNum.num 1, pricePerUnit := none, unit := none,
    imageUrl := "https://www.trolley.co.uk/img/product/XYZ789",
    productUrl := "https://www.trolley.co.uk/product/aldi-cheddar/XYZ789" }

def c4detail : ProductDetail :=
  { code := "ABC123", name := "Cheddar 400g", weight := some "400g",
    imageUrl := none, storePrices := [c4sp], alternatives := [c4alt],
    priceHistory := { usual := none, highest := none }, source := "trolley.co.uk" }

def c4dr : DetailResult :=
  { product := c5stub, detail := c4detail,
    detailUrl := "https://www.trolley.co.uk/product/cheddar/ABC123" }

def c4input : List DetailResult := [c4dr]

/-- C4 counterexample: the store Aldi appears in a primary StorePriceEntry
(price 0), yet the merged output row for Aldi is the alternatives-sourced
row (price 1, the alternative's product URL); the primary merge produced
no row for Aldi at all, so the claim that the output row for such a store
is always primary-sourced fails. -/
theorem merge_primary_precedence_counterexample :
    c4sp ∈ c4dr.detail.storePrices ∧ c4sp.store = "Aldi" ∧
    mapGet (primaryPass c4input) "Aldi" = none ∧
    mapGet (mergeMap c4input) "Aldi" = some (mkAltRow c4alt) ∧
    (mkAltRow c4alt).price = JSNum.num 1 ∧
    (mkAltRow c4alt).productUrl = c4alt.productUrl := by
  refine ⟨by decide, by decide, by decide, by decide, by decide, by decide⟩

theorem merge_primary_precedence_witness :
    (∃ dr ∈ c5input, ∃ sp ∈ dr.detail.storePrices,
        sp.store = "Tesco" ∧ sp.store ≠ "" ∧ sp.price.truthy = true) ∧
    (mapGet (mergeMap c5input) "Tesco" = mapGet (primaryPass c5input) "Tesco" ∧
      (mapGet (primaryPass c5input) "Tesco").isSome = true) := by
  have hex : ∃ dr ∈ c5input, ∃ sp ∈ dr.detail.storePrices,
      sp.store = "Tesco" ∧ sp.store ≠ "" ∧ sp.price.truthy = true :=
    ⟨c5dr, by decide, c5e2, by decide, by decide, by decide, by decide⟩
  exact ⟨hex, (merge_primary_precedence c5input "Tesco").1 hex⟩

/-- A well-formed comparison row: non-empty store, strictly positive
numeric price. -/
def goodRow (row : ComparisonRow) : Prop :=
  row.store ≠ "" ∧ ∃ p, row.price = JSNum.num p ∧ 0 < p

theorem mem_mapSet :
    ∀ (m : RowMap) (k : String) (v : ComparisonRow) (x : String × ComparisonRow),
      x ∈ mapSet m k v → x ∈ m ∨ x = (k, v) := by
  intro m
  induction m with
  | nil =>
    intro k v x hx
    simp [mapSet] at hx
    exact Or.inr hx
  | cons kv rest ih =>
    intro k v x hx
    obtain ⟨k0, v0⟩ := kv
    by_cases hk : k0 = k
    · simp only [mapSet, if_pos hk, List.mem_cons] at hx
      rcases hx with rfl | hx
      · exact Or.inr rfl
      · exact Or.inl (List.mem_cons_of_mem _ hx)
    · simp only [mapSet, if_neg hk, List.mem_cons] at hx
      rcases hx with rfl | hx
      · exact Or.inl (List.mem_cons_self _ _)
      · rcases ih k v x hx with h1 | h1
        · exact Or.inl (List.mem_cons_of_mem _ h1)
        · exact Or.inr h1

theorem primaryStep_good {dr : DetailResult} {m : RowMap} {sp : StorePriceEntry}
    (hin : ∀ kv ∈ m, goodRow kv.2)
    (hpos : ∀ p, sp.price = JSNum.num p → 0 ≤ p) :
    ∀ kv ∈ primaryStep dr m sp, goodRow kv.2 := by
  unfold primaryStep
  by_cases h1 : sp.store = ""
  · rw [if_pos h1]; exact hin
  rw [if_neg h1]
  by_cases h2 : (!sp.price.truthy) = true
  · rw [if_pos h2]; exact hin
  rw [if_neg h2]
  have htr : sp.price.truthy = true := by simpa using h2
  have hgood : goodRow (mkRow dr sp) := by
    refine ⟨h1, ?_⟩
    cases hp : sp.price with
    | nan => rw [hp] at htr; cases htr
    | num q =>
      refine ⟨q, hp, ?_⟩
      rw [hp] at htr
      simp only [JSNum.truthy, decide_eq_true_eq] at htr
      exact lt_of_le_of_ne (hpos q hp) (Ne.symm htr)
  cases hg : mapGet m sp.store with
  | none =>
    dsimp only
    intro kv hkv
    rcases mem_mapSet _ _ _ _ hkv with hm | rfl
    · exact hin kv hm
    · exact hgood
  | some ex =>
    dsimp only
    by_cases hlt : (effPrice sp.loyaltyPrice sp.price).lt
        (effPrice ex.loyaltyPrice ex.price) = true
    · rw [if_pos hlt]
      intro kv hkv
      rcases mem_mapSet _ _ _ _ hkv with hm | rfl
      · exact hin kv hm
      · exact hgood
    · rw [if_neg hlt]
      exact hin

theorem primaryEntries_mem {drs : List DetailResult}
    {x : DetailResult × StorePriceEntry} (h : x ∈ primaryEntries drs) :
    x.1 ∈ drs ∧ x.2 ∈ x.1.detail.storePrices := by
  unfold primaryEntries at h
  rw [List.mem_flatten] at h
  obtain ⟨l, hl, hx⟩ := h
  rw [List.mem_map] at hl
  obtain ⟨dr, hdr, rfl⟩ := hl
  rw [List.mem_map] at hx
  obtain ⟨sp, hsp, rfl⟩ := hx
  exact ⟨hdr, hsp⟩

theorem foldl_primaryStep_good :
    ∀ (l : List (DetailResult × StorePriceEntry)) (m : RowMap),
      (∀ x ∈ l, ∀ p, x.2.price = JSNum.num p → 0 ≤ p) →
      (∀ kv ∈ m, goodRow kv.2) →
      ∀ kv ∈ l.foldl (fun m x => primaryStep x.1 m x.2) m, goodRow kv.2 := by
  intro l
  induction l with
  | nil => intro m _ hin; exact hin
  | cons x r ih =>
    intro m hl hin
    exact ih _ (fun y hy => hl y (List.mem_cons_of_mem _ hy))
      (primaryStep_good hin (hl x (List.mem_cons_self x r)))

theorem altStep_good {m : RowMap} {alt : AltEntry}
    (hin : ∀ kv ∈ m, goodRow kv.2) :
    ∀ kv ∈ altStep m alt, goodRow kv.2 := by
  unfold altStep
  by_cases h1 : alt.store = ""
  · rw [if_pos h1]; exact hin
  rw [if_neg h1]
  by_cases h2 : (mapGet m alt.store).isSome = true
  · rw [if_pos h2]; exact hin
  rw [if_neg h2]
  by_cases h3 : (!alt.price.truthy) = true
  · rw [if_pos h3]; exact hin
  rw [if_neg h3]
  by_cases h4 : alt.price.le (JSNum.num 0) = true
  · rw [if_pos h4]; exact hin
  rw [if_neg h4]
  have htr : alt.price.truthy = true := by simpa using h3
  have hgood : goodRow (mkAltRow alt) := by
    refine ⟨h1, ?_⟩
    cases hp : alt.price with
    | nan => rw [hp] at htr; cases htr
    | num q =>
      refine ⟨q, hp, ?_⟩
      rw [hp] at h4
      simp only [JSNum.le, decide_eq_true_eq] at h4
      by_contra hq
      push_neg at hq
      exact h4 (by simpa using hq)
  intro kv hkv
  rcases mem_mapSet _ _ _ _ hkv with hm | rfl
  · exact hin kv hm
  · exact hgood

theorem foldl_altStep_good :
    ∀ (l : List AltEntry) (m : RowMap),
      (∀ kv ∈ m, goodRow kv.2) →
      ∀ kv ∈ l.foldl altStep m, goodRow kv.2 := by
  intro l
  induction l with
  | nil => intro m hin; exact hin
  | cons a r ih =>
    intro m hin
    exact ih _ (altStep_good hin)

/-- C10: every comparison row of the merged output has a non-empty store
name and a strictly positive numeric price, provided every primary entry
price is non-negative (which the detail parser guarantees: parsed pound
tokens are non-negative, see parseSegment_price_nonneg): the primary pass
drops entries with an empty store or a falsy (0 or NaN) price, and the
alternatives pass additionally drops non-positive prices, so the 0-price
sentinel never appears as a row. -/
theorem comparison_rows_positive (drs : List DetailResult)
    (hpos : ∀ dr ∈ drs, ∀ sp ∈ dr.detail.storePrices,
      ∀ p, sp.price = JSNum.num p → 0 ≤ p) :
    ∀ row ∈ mergeStorePrices drs,
      row.store ≠ "" ∧ ∃ p, row.price = JSNum.num p ∧ 0 < p := by
  intro row hrow
  unfold mergeStorePrices mapValues at hrow
  rw [List.mem_map] at hrow
  obtain ⟨kv, hkv, rfl⟩ := hrow
  have hall : ∀ kv ∈ mergeMap drs, goodRow kv.2 := by
    unfold mergeMap
    rw [altsPass_eq_foldl, primaryPass_eq_foldl]
    apply foldl_altStep_good
    apply foldl_primaryStep_good
    · intro x hx p hp
      obtain ⟨hdr, hsp⟩ := primaryEntries_mem hx
      exact hpos x.1 hdr x.2 hsp p hp
    · intro kv hkv
      cases hkv
  exact hall kv hkv

theorem jsParseFloat_nonneg {tok : Text} {q : ℚ}
    (h : jsParseFloat tok = JSNum.num q) : 0 ≤ q := by
  simp only [jsParseFloat] at h
  split at h
  · cases h
  · injection h with h2
    rw [← h2]
    positivity

/-- Support for the C10 hypothesis: every price the segment parser puts in
an entry is a parsed pound token, hence non-negative when numeric. -/
theorem parseSegment_price_nonneg {cfg : StoreConfig} {seg : Text}
    {e : StorePriceEntry} (h : parseSegment cfg seg = some e) :
    ∀ p, e.price = JSNum.num p → 0 ≤ p := by
  obtain ⟨price, rest, hsp, _, hpr, _, _⟩ := parseSegment_fields h
  intro p hp
  have hmem : price ∈ segmentPrices (cleanSegment seg) := by
    rw [hsp]
    exact List.mem_cons_self _ _
  unfold segmentPrices at hmem
  rw [List.mem_map] at hmem
  obtain ⟨m0, _, hm0⟩ := hmem
  have hpq : price = JSNum.num p := by rw [← hpr]; exact hp
  exact jsParseFloat_nonneg (hm0.trans hpq)

theorem comparison_rows_positive_witness :
    mkAltRow c4alt ∈ mergeStorePrices c4input ∧
    ((mkAltRow c4alt).store ≠ "" ∧
      ∃ p, (mkAltRow c4alt).price = JSNum.num p ∧ 0 < p) := by
  refine ⟨by decide, ?_⟩
  apply comparison_rows_positive c4input ?_ (mkAltRow c4alt) (by decide)
  intro dr hdr sp hsp p hp
  have hdr' : dr = c4dr := by simpa [c4input] using hdr
  subst hdr'
  have hsp' : sp = c4sp := by simpa [c4dr, c4detail] using hsp
  subst hsp'
  have h0 : JSNum.num 0 = JSNum.num p := hp
  injection h0 with h2
  exact le_of_eq h2

/-- Normalization factor of a weight unit (kg and l to a thousandth base
unit, pt to 568 ml, else 1). -/
def weightFactor (unitStr : String) : ℚ :=
  if unitStr = "kg" ∨ unitStr = "l" then 1000
  else if unitStr = "pt" then 568 else 1

theorem computePer100g_branch (P q f : ℚ) (_hf : 0 < f) :
    (if ((JSNum.num (q * f)).lt (JSNum.num 5) ||
          (JSNum.num 50000).lt (JSNum.num (q * f))) = true
     then none
     else some (((JSNum.num P).div (JSNum.num (q * f))).mulQ 100)) =
    (if q * f < 5 ∨ 50000 < q * f then (none : Option JSNum)
     else some (JSNum.num (P / (q * f) * 100))) := by
  by_cases hc : q * f < 5 ∨ 50000 < q * f
  · have hb : ((JSNum.num (q * f)).lt (JSNum.num 5) ||
        (JSNum.num 50000).lt (JSNum.num (q * f))) = true := by
      rcases hc with h | h
      · simp [JSNum.lt, h]
      · simp [JSNum.lt, h]
    rw [if_pos hb, if_pos hc]
  · push_neg at hc
    have hb : ((JSNum.num (q * f)).lt (JSNum.num 5) ||
        (JSNum.num 50000).lt (JSNum.num (q * f))) = false := by
      simp only [JSNum.lt, Bool.or_eq_false_iff, decide_eq_false_iff_not]
      exact ⟨not_lt.mpr hc.1, not_lt.mpr hc.2⟩
    have hne : q * f ≠ 0 := by
      have h5 : (5 : ℚ) ≤ q * f := hc.1
      intro h0
      rw [h0] at h5
      norm_num at h5
    rw [if_neg (by simp [hb]), if_neg (by push_neg; exact hc)]
    simp [JSNum.div, hne, JSNum.mulQ]

/-- C6: for a positive price and a weight token whose magnitude parses to
a rational q and whose unit is one of g, kg, ml, l, pt, `computePer100g`
normalizes kg and l by 1000 and pt by 568 and returns none exactly when
the normalized amount leaves the interval from 5 to 50000, and otherwise
the price over the normalized amount, times 100. -/
theorem computePer100g_spec (P q : ℚ) (w : String) (tok : Text) (unitStr : String)
    (hP : 0 < P)
    (hw : weightMatch w.toList = some (tok, unitStr))
    (hq : jsParseFloat tok = JSNum.num q) :
    computePer100g (JSNum.num P) (some w) =
      if q * weightFactor unitStr < 5 ∨ 50000 < q * weightFactor unitStr then none
      else some (JSNum.num (P / (q * weightFactor unitStr) * 100)) := by
  have htr : (JSNum.num P).truthy = true := by
    simp only [JSNum.truthy, decide_eq_true_eq]
    exact ne_of_gt hP
  have hww : ¬ w = "" := by
    intro hw0
    subst hw0
    simp [weightMatch] at hw
  unfold computePer100g
  simp only [htr, Bool.not_true]
  rw [if_neg (by simp)]
  rw [if_neg hww, hw]
  dsimp only
  rw [hq]
  unfold weightFactor
  by_cases h1 : unitStr = "kg" ∨ unitStr = "l"
  · rw [if_pos h1, if_pos h1]
    exact computePer100g_branch P q 1000 (by norm_num)
  · rw [if_neg h1, if_neg h1]
    by_cases h2 : unitStr = "pt"
    · rw [if_pos h2, if_pos h2]
      exact computePer100g_branch P q 568 (by norm_num)
    · rw [if_neg h2, if_neg h2]
      have := computePer100g_branch P q 1 (by norm_num)
      rw [mul_one] at this
      rw [show (JSNum.num q) = JSNum.num (q * 1) from by rw [mul_one]] at this ⊢
      rw [mul_one] at this ⊢
      exact this

theorem computePer100g_spec_witness :
    weightMatch "400g".toList = some ("400".toList, "g") ∧
    jsParseFloat "400".toList = JSNum.num 400 ∧
    computePer100g (JSNum.num 2) (some "400g") =
      (if (400 : ℚ) * weightFactor "g" < 5 ∨ 50000 < 400 * weightFactor "g" then none
       else some (JSNum.num (2 / (400 * weightFactor "g") * 100))) ∧
    computePer100g (JSNum.num 2) (some "400g") = some (JSNum.num (1/2)) := by
  refine ⟨by decide, by decide, ?_, by decide⟩
  exact computePer100g_spec 2 400 "400g" "400".toList "g" (by norm_num) (by decide) (by decide)

/-- Failure modes of the candidate-selector collaborator: unconfigured key,
a thrown fetch or decode (oracle none), or a reply in which no bracketed
index array is found or `JSON.parse` throws on it. -/
def SelectorFails (hasKey : Bool) (resp : Option String) : Prop :=
  hasKey = false ∨ resp = none ∨
  ∃ t, resp = some t ∧
    (match firstMatch mBracket (jsTrim t.toList) with
     | none => True
     | some arr => jsonParseNatList arr = none)

theorem searchLoop_status (fetchO : String → Except String String)
    (parseO : String → JSNum → List ProductStub) (query : String) (maxResults : JSNum) :
    ∀ urls : List String, (searchLoop fetchO parseO query maxResults urls).statusCode = 200 := by
  intro urls
  induction urls with
  | nil => rfl
  | cons u rest ih =>
    unfold searchLoop
    cases fetchO u with
    | error e => exact ih
    | ok html =>
      dsimp only
      by_cases h1 : html.length < 200
      · rw [if_pos h1]; exact ih
      · rw [if_neg h1]
        by_cases h2 : (parseO html maxResults).length > 0
        · rw [if_pos h2]; rfl
        · rw [if_neg h2]; exact ih

theorem handleCompare_status_200 (fetchO : String → Except String String)
    (parseListO : String → JSNum → List ProductStub)
    (parseDetailO : String → String → ProductDetail)
    (hasKey : Bool) (selResp : Option String) (query : String)
    (hq : ¬(query = "" ∨ query.length > 120)) :
    (handleCompare fetchO parseListO parseDetailO hasKey selResp query).statusCode = 200 := by
  simp only [handleCompare]
  rw [if_neg hq]
  by_cases h1 : compareCandidateLoop fetchO parseListO (searchUrls query) = []
  · rw [if_pos h1]; rfl
  · rw [if_neg h1]
    split <;> rfl

/-- C7: whenever the selector collaborator is unconfigured, throws, or
returns unparseable output, `aiSelectBestCandidates` returns exactly the
index list with the single entry 0 for every non-empty candidate list, and
a valid compare request still yields a 200 response. -/
theorem selector_failure_degrades (fetchO : String → Except String String)
    (parseListO : String → JSNum → List ProductStub)
    (parseDetailO : String → String → ProductDetail)
    (hasKey : Bool) (selResp : Option String) (query : String)
    (cands : List ProductStub)
    (hq : query ≠ "") (hlen : query.length ≤ 120)
    (_hc : cands ≠ [])
    (hfail : SelectorFails hasKey selResp) :
    aiSelectBestCandidates hasKey cands selResp = [0] ∧
    (handleCompare fetchO parseListO parseDetailO hasKey selResp query).statusCode = 200 := by
  constructor
  · unfold aiSelectBestCandidates
    rcases hfail with hk | hr | ⟨t, ht, hparse⟩
    · rw [if_pos (by simp [hk])]
    · subst hr
      by_cases h1 : (!hasKey || cands.length ≤ 1) = true
      · rw [if_pos h1]
      · rw [if_neg h1]
    · subst ht
      by_cases h1 : (!hasKey || cands.length ≤ 1) = true
      · rw [if_pos h1]
      · rw [if_neg h1]
        dsimp only
        cases hb : firstMatch mBracket (jsTrim t.toList) with
        | none => rfl
        | some arr =>
          rw [hb] at hparse
          dsimp only at hparse
          dsimp only
          rw [hparse]
  · exact handleCompare_status_200 fetchO parseListO parseDetailO hasKey selResp query
      (by push_neg; exact ⟨hq, by omega⟩)

/-- C7 witness stub list. -/
def c7stub : ProductStub :=
  { name := "Semi Skimmed Milk", code := "MLK001", slug := "milk", store := "Tesco",
    price := JSNum.num 1, wasPrice := none, weight := some "2pt",
    pricePerUnit := none, unit := none,
    imageUrl := "https://www.trolley.co.uk/img/product/MLK001",
    productUrl := "https://www.trolley.co.uk/product/milk/MLK001" }

theorem selector_failure_degrades_witness :
    aiSelectBestCandidates false [c7stub] none = [0] ∧
    (handleCompare (fun _ => Except.error "timeout") (fun _ _ => []) (fun _ _ => c5detail)
        false none "milk").statusCode = 200 := by
  exact selector_failure_degrades (fun _ => Except.error "timeout") (fun _ _ => [])
    (fun _ _ => c5detail) false none "milk" [c7stub]
    (by decide) (by decide) (by decide) (Or.inl rfl)

theorem searchLoop_empty (fetchO : String → Except String String)
    (parseO : String → JSNum → List ProductStub) (query : String) (maxResults : JSNum) :
    ∀ urls : List String,
      (∀ url ∈ urls, ∀ html, fetchO url = Except.ok html → parseO html maxResults = []) →
      searchLoop fetchO parseO query maxResults urls
        = json 200 (ResponseBody.searchResults query [] 0 "trolley.co.uk") := by
  intro urls
  induction urls with
  | nil => intro _; rfl
  | cons u rest ih =>
    intro hall
    unfold searchLoop
    cases hf : fetchO u with
    | error e => exact ih (fun url hu => hall url (List.mem_cons_of_mem _ hu))
    | ok html =>
      dsimp only
      by_cases h1 : html.length < 200
      · rw [if_pos h1]
        exact ih (fun url hu => hall url (List.mem_cons_of_mem _ hu))
      · rw [if_neg h1]
        have hp : parseO html maxResults = [] :=
          hall u (List.mem_cons_self u rest) html hf
        rw [if_neg (by simp [hp])]
        exact ih (fun url hu => hall url (List.mem_cons_of_mem _ hu))

/-- C8: for a valid listing query, when every URL variant either fails to
fetch (or yields a page shorter than the sanity cutoff) or parses to zero
stubs, `handleSearch` returns the 200 empty result set, not an error. -/
theorem handleSearch_all_variants_empty (fetchO : String → Except String String)
    (parseO : String → JSNum → List ProductStub) (query : String) (maxRaw : JSNum)
    (hq : query ≠ "") (hlen : query.length ≤ 120)
    (hall : ∀ url ∈ searchUrls query, ∀ html, fetchO url = Except.ok html →
        parseO html (jsMaxNum (JSNum.num 1) (jsMinNum maxRaw (JSNum.num 500))) = []) :
    handleSearch fetchO parseO query maxRaw
      = json 200 (ResponseBody.searchResults query [] 0 "trolley.co.uk") := by
  simp only [handleSearch]
  rw [if_neg (by push_neg; exact ⟨hq, by omega⟩)]
  exact searchLoop_empty fetchO parseO query _ (searchUrls query) hall

theorem handleSearch_all_variants_empty_witness :
    handleSearch (fun _ => Except.error "HTTP 500") (fun _ _ => []) "milk" (JSNum.num 60)
      = json 200 (ResponseBody.searchResults "milk" [] 0 "trolley.co.uk") := by
  exact handleSearch_all_variants_empty (fun _ => Except.error "HTTP 500") (fun _ _ => [])
    "milk" (JSNum.num 60) (by decide) (by decide)
    (by intro url _ html h; cases h)

theorem handleSearch_status (fetchO : String → Except String String)
    (parseO : String → JSNum → List ProductStub) (query : String) (maxRaw : JSNum) :
    (handleSearch fetchO parseO query maxRaw).statusCode = 200 ∨
    (handleSearch fetchO parseO query maxRaw).statusCode = 400 := by
  simp only [handleSearch]
  by_cases hv : query = "" ∨ query.length > 120
  · rw [if_pos hv]
    exact Or.inr rfl
  · rw [if_neg hv]
    exact Or.inl (searchLoop_status fetchO parseO query _ (searchUrls query))

theorem handleCompare_status (fetchO : String → Except String String)
    (parseListO : String → JSNum → List ProductStub)
    (parseDetailO : String → String → ProductDetail)
    (hasKey : Bool) (selResp : Option String) (query : String) :
    (handleCompare fetchO parseListO parseDetailO hasKey selResp query).statusCode = 200 ∨
    (handleCompare fetchO parseListO parseDetailO hasKey selResp query).statusCode = 400 := by
  by_cases hv : query = "" ∨ query.length > 120
  · right
    simp only [handleCompare]
    rw [if_pos hv]
    rfl
  · exact Or.inl (handleCompare_status_200 fetchO parseListO parseDetailO hasKey selResp query hv)

/-- C9: an invalid product code yields the 400 error object; a valid code
whose single detail-page fetch fails yields the 500 error object carrying
the fetch error message — and this is the only hard error an upstream
fetch failure can cause in the pipeline: for arbitrary fetch behaviour the
listing and compare handlers only ever answer 200 or 400. -/
theorem detail_fetch_error_surfaced (fetchO : String → Except String String)
    (parseListO : String → JSNum → List ProductStub)
    (parseDetailO : String → String → ProductDetail)
    (code slug query : String) (maxRaw : JSNum)
    (hasKey : Bool) (selResp : Option String) :
    ((code = "" ∨ (!isValidProductCode code) = true) →
      handleProductDetail fetchO parseDetailO code slug
        = json 400 (ResponseBody.errorMsg "Invalid product code")) ∧
    (¬(code = "" ∨ (!isValidProductCode code) = true) →
      ∀ msg, fetchO (productDetailUrl code slug) = Except.error msg →
        handleProductDetail fetchO parseDetailO code slug
          = json 500 (ResponseBody.errorMsg msg)) ∧
    ((handleSearch fetchO parseListO query maxRaw).statusCode = 200 ∨
      (handleSearch fetchO parseListO query maxRaw).statusCode = 400) ∧
    ((handleCompare fetchO parseListO parseDetailO hasKey selResp query).statusCode = 200 ∨
      (handleCompare fetchO parseListO parseDetailO hasKey selResp query).statusCode = 400) := by
  refine ⟨?_, ?_, handleSearch_status fetchO parseListO query maxRaw,
    handleCompare_status fetchO parseListO parseDetailO hasKey selResp query⟩
  · intro hv
    unfold handleProductDetail
    rw [if_pos hv]
  · intro hv msg hmsg
    unfold handleProductDetail
    rw [if_neg hv, hmsg]

theorem detail_fetch_error_surfaced_witness :
    handleProductDetail (fun _ => Except.error "HTTP 503") (fun _ _ => c5detail) "ab" ""
      = json 400 (ResponseBody.errorMsg "Invalid product code") ∧
    handleProductDetail (fun _ => Except.error "HTTP 503") (fun _ _ => c5detail) "ABC123" ""
      = json 500 (ResponseBody.errorMsg "HTTP 503") ∧
    ((handleSearch (fun _ => Except.error "HTTP 503") (fun _ _ => []) "milk"
        (JSNum.num 60)).statusCode = 200 ∨
      (handleSearch (fun _ => Except.error "HTTP 503") (fun _ _ => []) "milk"
        (JSNum.num 60)).statusCode = 400) := by
  refine ⟨?_, ?_, ?_⟩
  · exact (detail_fetch_error_surfaced (fun _ => Except.error "HTTP 503") (fun _ _ => [])
      (fun _ _ => c5detail) "ab" "" "milk" (JSNum.num 60) false none).1 (by decide)
  · exact (detail_fetch_error_surfaced (fun _ => Except.error "HTTP 503") (fun _ _ => [])
      (fun _ _ => c5detail) "ABC123" "" "milk" (JSNum.num 60) false none).2.1
      (by decide) "HTTP 503" rfl
  · exact (detail_fetch_error_surfaced (fun _ => Except.error "HTTP 503") (fun _ _ => [])
      (fun _ _ => c5detail) "ABC123" "" "milk" (JSNum.num 60) false none).2.2.1
